import Mathlib

/-!
Shallow embedding of the in-memory store of the `highloadcup_round_1` service
(`src/models.rs`, `src/store.rs`) together with proofs of the specification
claims about it.

Conventions of the embedding:
* Rust `Vec` becomes `List`; `u32`/`u8`/`usize` become `Nat`; `i64`/`i32`
  timestamps and years become `Int` (the claims never exercise machine-width
  overflow); Rust `String` becomes `String` with `len()` = `utf8ByteSize`.
* A Rust panic (out-of-bounds index) is modelled by `Option`: a result of
  `none` means the call panics.  Mutating store methods (`&mut self` in Rust)
  are state-passing: they return the store next to the `Result`; every `Err`
  early-return in the source happens before any mutation, which the
  translation shows by returning the input store unchanged on those paths.
* `chrono`'s `DateTime::year`/`with_year`/`timestamp` are modelled by exact
  proleptic-Gregorian civil-date arithmetic over `Int` seconds since epoch.
* The source computes the average rating in IEEE-754 `f64`; the embedding
  models that computation with exact rationals (`ℚ`), which agrees with the
  source wherever the `f64` computation is exact.
-/

namespace Hlcup

/-- Modelled from the spec: `id_to_index` and the entity `index()` helpers are
declared in a module of this repository that is not among the provided source
files (only their call sites in `src/store.rs` are).  Spec §9 describes the
mapping: "Dense-id-as-array-index optimization ... mapping identifier directly
to array position, requiring strictly sequential insertion", and the store
tests place the entity with id 1 at array position 0, id 2 at position 1.
Hence: identifier `id` is stored at array position `id - 1`. -/
def id_to_index (id : Nat) : Nat := id - 1

/-- Validation error carrying the offending field and a message
(`models.rs`, `ValidationError`). -/
structure ValidationError where
  field : String
  message : String
deriving Repr, DecidableEq

/-- Person entity (`models.rs`, `User`). -/
structure User where
  id : Nat
  email : String
  first_name : String
  last_name : String
  gender : Char
  birth_date : Int
deriving Repr, DecidableEq

/-- Patch shape for a person (`models.rs`, `UserData`). -/
structure UserData where
  email : Option String
  first_name : Option String
  last_name : Option String
  gender : Option Char
  birth_date : Option Int
deriving Repr, DecidableEq

/-- Place entity (`models.rs`, `Location`). -/
structure Location where
  id : Nat
  place : String
  country : String
  city : String
  distance : Nat
deriving Repr, DecidableEq

/-- Patch shape for a place (`models.rs`, `LocationData`). -/
structure LocationData where
  place : Option String
  country : Option String
  city : Option String
  distance : Option Nat
deriving Repr, DecidableEq

/-- Visit entity (`models.rs`, `Visit`). -/
structure Visit where
  id : Nat
  location : Nat
  user : Nat
  visited_at : Int
  mark : Nat
deriving Repr, DecidableEq

/-- Patch shape for a visit (`models.rs`, `VisitData`). -/
structure VisitData where
  location : Option Nat
  user : Option Nat
  visited_at : Option Int
  mark : Option Nat
deriving Repr, DecidableEq

/-- Filters of `get_user_visits` (`models.rs`, `GetUserVisitsOptions`). -/
structure GetUserVisitsOptions where
  from_date : Option Int
  to_date : Option Int
  country : Option String
  to_distance : Option Nat
deriving Repr, DecidableEq

/-- Default filter set: every field absent (Rust `Default` derive). -/
def GetUserVisitsOptions.default : GetUserVisitsOptions := ⟨none, none, none, none⟩

/-- One visit-history entry (`models.rs`, `UserVisit`). -/
structure UserVisit where
  mark : Nat
  visited_at : Int
  place : String
deriving Repr, DecidableEq

/-- Visit-history result (`models.rs`, `UserVisits`). -/
structure UserVisits where
  visits : List UserVisit
deriving Repr, DecidableEq

/-- Filters of `get_location_avg` (`models.rs`, `GetLocationAvgOptions`). -/
structure GetLocationAvgOptions where
  from_date : Option Int
  to_date : Option Int
  from_age : Option Int
  to_age : Option Int
  gender : Option Char
deriving Repr, DecidableEq

/-- Default filter set: every field absent (Rust `Default` derive). -/
def GetLocationAvgOptions.default : GetLocationAvgOptions := ⟨none, none, none, none, none⟩

/-- Rating result (`models.rs`, `LocationRate`); the `f64` average is modelled
as an exact rational. -/
structure LocationRate where
  avg : ℚ
deriving Repr, DecidableEq

/-- Rust `LocationRate::default()`: average 0.0. -/
def LocationRate.default : LocationRate := ⟨0⟩

/-- Empty success payload (`models.rs`, `Empty`). -/
structure Empty where
deriving Repr, DecidableEq

/-- Store-level errors (`store.rs`, `StoreError`). -/
inductive StoreError where
  | EntryExists : StoreError
  | EntityNotExists : StoreError
  | InvalidEntity : ValidationError → StoreError
  | UnexpectedIndex : (vec_len : Nat) → (new_index : Nat) → StoreError
  | LockError : StoreError
deriving Repr, DecidableEq

/-- Maximum email byte length (`models.rs`, `User::MAX_EMAIL_LEN`). -/
def User.MAX_EMAIL_LEN : Nat := 100
/-- Maximum name byte length (`models.rs`, `User::MAX_NAME_LEN`). -/
def User.MAX_NAME_LEN : Nat := 500
/-- Allowed genders (`models.rs`, `User::ALLOWED_GENDER`). -/
def User.ALLOWED_GENDER : List Char := ['f', 'm']

/-- Person validation (`models.rs`, `impl Validate for User`). -/
def User.valid (u : User) : Except ValidationError Unit :=
  if u.email.utf8ByteSize > User.MAX_EMAIL_LEN then
    .error ⟨"email", "Email len is " ++ toString u.email.utf8ByteSize ++
      " (max " ++ toString User.MAX_EMAIL_LEN ++ ")"⟩
  else if u.first_name.utf8ByteSize > User.MAX_NAME_LEN then
    .error ⟨"first_name", "Name len is " ++ toString u.first_name.utf8ByteSize ++
      " (max " ++ toString User.MAX_NAME_LEN ++ ")"⟩
  else if u.last_name.utf8ByteSize > User.MAX_NAME_LEN then
    .error ⟨"last_name", "Name len is " ++ toString u.last_name.utf8ByteSize ++
      " (max " ++ toString User.MAX_NAME_LEN ++ ")"⟩
  else if ¬ User.ALLOWED_GENDER.contains u.gender then
    .error ⟨"gender", "Gender is not allowed"⟩
  else
    .ok ()

/-- Maximum country byte length (`models.rs`, `Location::MAX_COUNTRY_LEN`). -/
def Location.MAX_COUNTRY_LEN : Nat := 50
/-- Maximum city byte length (`models.rs`, `Location::MAX_CITY_LEN`). -/
def Location.MAX_CITY_LEN : Nat := 50

/-- Place validation (`models.rs`, `impl Validate for Location`); the source
spells the country field "contry" in the error. -/
def Location.valid (l : Location) : Except ValidationError Unit :=
  if l.country.utf8ByteSize > Location.MAX_COUNTRY_LEN then
    .error ⟨"contry", "Contry len is " ++ toString l.country.utf8ByteSize ++
      " (max " ++ toString Location.MAX_COUNTRY_LEN ++ ")"⟩
  else if l.city.utf8ByteSize > Location.MAX_CITY_LEN then
    .error ⟨"city", "City len is " ++ toString l.city.utf8ByteSize ++
      " (max " ++ toString Location.MAX_CITY_LEN ++ ")"⟩
  else
    .ok ()

/-- Maximum mark (`models.rs`, `Visit::MAX_MARK`). -/
def Visit.MAX_MARK : Nat := 5

/-- Visit validation (`models.rs`, `impl Validate for Visit`). -/
def Visit.valid (v : Visit) : Except ValidationError Unit :=
  if v.mark > Visit.MAX_MARK then
    .error ⟨"mark", "Mark is " ++ toString v.mark ++
      " (max " ++ toString Visit.MAX_MARK ++ ")"⟩
  else
    .ok ()

/-- Array position of a person (modelled `User::index`, see `id_to_index`). -/
def User.index (u : User) : Nat := id_to_index u.id
/-- Array position of a place (modelled `Location::index`). -/
def Location.index (l : Location) : Nat := id_to_index l.id
/-- Array position of a visit (modelled `Visit::index`). -/
def Visit.index (v : Visit) : Nat := id_to_index v.id
/-- Array position of a visit's person (modelled `Visit::user_index`). -/
def Visit.user_index (v : Visit) : Nat := id_to_index v.user
/-- Array position of a visit's place (modelled `Visit::location_index`). -/
def Visit.location_index (v : Visit) : Nat := id_to_index v.location

/-! Calendar model for `chrono`'s proleptic-Gregorian `year()` / `with_year()`
/ `timestamp()` on a UTC datetime built with `from_timestamp(ts, 0)`. -/

/-- Civil date (year, month, day) of a day number counted from 1970-01-01
(Gregorian calendar, floor-division convention). -/
def civilFromDays (z0 : Int) : Int × Int × Int :=
  let z := z0 + 719468
  let era := z.fdiv 146097
  let doe := z - era * 146097
  let yoe := (doe - doe.fdiv 1460 + doe.fdiv 36524 - doe.fdiv 146096).fdiv 365
  let y := yoe + era * 400
  let doy := doe - (365 * yoe + yoe.fdiv 4 - yoe.fdiv 100)
  let mp := (5 * doy + 2).fdiv 153
  let d := doy - (153 * mp + 2).fdiv 5 + 1
  let m := mp + (if mp < 10 then 3 else -9)
  (y + (if m ≤ 2 then 1 else 0), m, d)

/-- Day number (from 1970-01-01) of a civil date. -/
def daysFromCivil (y0 m d : Int) : Int :=
  let y := y0 - (if m ≤ 2 then 1 else 0)
  let era := y.fdiv 400
  let yoe := y - era * 400
  let doy := (153 * (m + (if m > 2 then -3 else 9)) + 2).fdiv 5 + d - 1
  let doe := yoe * 365 + yoe.fdiv 4 - yoe.fdiv 100 + doy
  era * 146097 + doe - 719468

/-- Gregorian leap-year test. -/
def isLeapYear (y : Int) : Bool := y % 4 == 0 && (y % 100 != 0 || y % 400 == 0)

/-- Number of days of a month in a year. -/
def daysInMonth (y m : Int) : Int :=
  if m = 2 then (if isLeapYear y then 29 else 28)
  else if m = 4 ∨ m = 6 ∨ m = 9 ∨ m = 11 then 30
  else 31

/-- Model of `chrono`: the (UTC) year of a timestamp. -/
def yearOfTs (ts : Int) : Int := (civilFromDays (ts.fdiv 86400)).1

/-- Model of `chrono`'s `with_year` followed by `timestamp()`: replace the
year of the datetime, keeping month, day and time of day; fails (`none`) when
the resulting date does not exist (February 29 of a non-leap year). -/
def withYearTs (ts : Int) (y : Int) : Option Int :=
  let days := ts.fdiv 86400
  let secs := ts - days * 86400
  let md := (civilFromDays days).2
  if md.2 ≤ daysInMonth y md.1 then some (daysFromCivil y md.1 md.2 * 86400 + secs)
  else none

/-- Round half away from zero to an integer — the behaviour of `f64::round`,
here on exact rationals. -/
def round_half_away (q : ℚ) : Int :=
  if q < 0 then -(Int.floor (-q + 1/2)) else Int.floor (q + 1/2)

/-- Average accuracy exponent (`store.rs`, `AVG_ACCURACY` = 5.0): the source
divides by `10f64.powf(5.0)` = 100000. -/
def AVG_DELIMITER : ℚ := 100000

/-- Exact-rational model of the source's `f64` average computation
`((sum as f64 / count as f64) * delimiter).round() / delimiter`. -/
def avg_mark (sum count : Nat) : ℚ :=
  ((round_half_away ((sum : ℚ) / (count : ℚ) * AVG_DELIMITER) : ℚ)) / AVG_DELIMITER

/-! The store. -/

/-- The in-memory store (`store.rs`, `Store`): the person and place tables
each pair an entity with its index bucket, a list of
`(visit position, other-entity position)` pairs. -/
structure Store where
  now : Int
  users : List (User × List (Nat × Nat))
  locations : List (Location × List (Nat × Nat))
  visits : List Visit
deriving Repr, DecidableEq

/-- `Store::new` (`store.rs`): remembers the construction-time "now". -/
def Store.new (now : Int) : Store := ⟨now, [], [], []⟩

/-- Rust `Iterator::position`: index of the first element satisfying the
predicate. -/
def findIdxP (g : α → Bool) : List α → Option Nat
  | [] => none
  | x :: rest => if g x then some 0 else (findIdxP g rest).map (· + 1)

/-- Rust `Iterator::position` with a predicate that can panic (the source
predicate of `add_visit_to_user` indexes the visit table): `none` = panic. -/
def findIdxM (f : α → Option Bool) : List α → Option (Option Nat)
  | [] => some none
  | x :: rest =>
    match f x with
    | none => none
    | some true => some (some 0)
    | some false =>
      match findIdxM f rest with
      | none => none
      | some none => some none
      | some (some n) => some (some (n + 1))

/-- Rust iterator `map(..).collect()` where the element map can panic
(it indexes into tables): `none` = panic. -/
def resolveList (f : α → Option β) : List α → Option (List β)
  | [] => some []
  | x :: rest =>
    match f x with
    | none => none
    | some b =>
      match resolveList f rest with
      | none => none
      | some r => some (b :: r)

/-- `Store::get_user` (`store.rs`). -/
def Store.get_user (s : Store) (id : Nat) : Except StoreError User :=
  let user_index := id_to_index id
  if h : s.users.length > user_index then .ok (s.users.get ⟨user_index, h⟩).1
  else .error .EntityNotExists

/-- Field-by-field application of a person patch (the `if let Some` chain of
`Store::update_user`). -/
def applyUserData (u : User) (d : UserData) : User :=
  { u with
    email := d.email.getD u.email
    first_name := d.first_name.getD u.first_name
    last_name := d.last_name.getD u.last_name
    gender := d.gender.getD u.gender
    birth_date := d.birth_date.getD u.birth_date }

/-- `Store::add_user` (`store.rs`). -/
def Store.add_user (s : Store) (user : User) : Except StoreError Empty × Store :=
  let user_index := id_to_index user.id
  if s.users.length > user_index then (.error .EntryExists, s)
  else if s.users.length ≠ user_index then
    (.error (.UnexpectedIndex s.users.length user_index), s)
  else
    match user.valid with
    | .error e => (.error (.InvalidEntity e), s)
    | .ok _ => (.ok ⟨⟩, { s with users := s.users ++ [(user, [])] })

/-- `Store::update_user` (`store.rs`).  The source guards with
`users.len() < user_index` (strict), then indexes `users[user_index]`;
when `user_index` equals the length the index expression panics (`none`). -/
def Store.update_user (s : Store) (id : Nat) (user_data : UserData) :
    Option (Except StoreError Empty × Store) :=
  let user_index := id_to_index id
  if s.users.length < user_index then some (.error .EntityNotExists, s)
  else
    match s.users[user_index]? with
    | none => none
    | some entry =>
      let updated_user := applyUserData entry.1 user_data
      match updated_user.valid with
      | .error e => some (.error (.InvalidEntity e), s)
      | .ok _ =>
        some (.ok ⟨⟩, { s with users := s.users.set user_index (updated_user, entry.2) })

/-- `Store::get_location` (`store.rs`). -/
def Store.get_location (s : Store) (id : Nat) : Except StoreError Location :=
  let location_index := id_to_index id
  if h : s.locations.length > location_index then .ok (s.locations.get ⟨location_index, h⟩).1
  else .error .EntityNotExists

/-- `Store::add_location` (`store.rs`). -/
def Store.add_location (s : Store) (location : Location) : Except StoreError Empty × Store :=
  let location_index := location.index
  if s.locations.length > location_index then (.error .EntryExists, s)
  else if s.locations.length ≠ location_index then
    (.error (.UnexpectedIndex s.locations.length location_index), s)
  else
    match location.valid with
    | .error e => (.error (.InvalidEntity e), s)
    | .ok _ => (.ok ⟨⟩, { s with locations := s.locations ++ [(location, [])] })

/-- Field-by-field application of a place patch. -/
def applyLocationData (l : Location) (d : LocationData) : Location :=
  { l with
    distance := d.distance.getD l.distance
    place := d.place.getD l.place
    country := d.country.getD l.country
    city := d.city.getD l.city }

/-- `Store::update_location` (`store.rs`); same strict `<` guard (and hence
the same panic on `location_index` = length) as `update_user`. -/
def Store.update_location (s : Store) (id : Nat) (location_data : LocationData) :
    Option (Except StoreError Empty × Store) :=
  let location_index := id_to_index id
  if s.locations.length < location_index then some (.error .EntityNotExists, s)
  else
    match s.locations[location_index]? with
    | none => none
    | some entry =>
      let updated_location := applyLocationData entry.1 location_data
      match updated_location.valid with
      | .error e => some (.error (.InvalidEntity e), s)
      | .ok _ =>
        some (.ok ⟨⟩,
          { s with locations := s.locations.set location_index (updated_location, entry.2) })

/-- `Store::get_visit` (`store.rs`). -/
def Store.get_visit (s : Store) (visit_id : Nat) : Except StoreError Visit :=
  let visit_index := id_to_index visit_id
  if h : s.visits.length > visit_index then .ok (s.visits.get ⟨visit_index, h⟩)
  else .error .EntityNotExists

/-- The timestamp a person bucket is ordered by: the `visited_at` of the visit
stored at position `vi` of the visit table (the value is irrelevant when `vi`
is out of range — the source would panic there). -/
def visitAt (visits : List Visit) (vi : Nat) : Int :=
  match visits[vi]? with
  | some v => v.visited_at
  | none => 0

/-- `Store::add_visit_to_user` (`store.rs`): insert
`(visit position, place position)` into the person's bucket before the first
entry with a strictly later `visited_at` (appending when there is none). -/
def Store.add_visit_to_user (s : Store) (visit : Visit) (location : Location) :
    Option Store :=
  match s.users[visit.user_index]? with
  | none => none
  | some entry =>
    let position := findIdxM
      (fun p => (s.visits[p.1]?).map (fun v => decide (visit.visited_at < v.visited_at)))
      entry.2
    match position with
    | none => none
    | some position =>
      let pair := (visit.index, location.index)
      let new_bucket :=
        match position with
        | some n => entry.2.insertIdx n pair
        | none => entry.2 ++ [pair]
      some { s with users := s.users.set visit.user_index (entry.1, new_bucket) }

/-- `Store::remove_visit_from_user` (`store.rs`): remove the first bucket
entry whose visit position matches; when none matches the source only logs an
error and leaves the bucket unchanged. -/
def Store.remove_visit_from_user (s : Store) (visit : Visit) : Option Store :=
  match s.users[visit.user_index]? with
  | none => none
  | some entry =>
    let position := findIdxP (fun p => visit.index == p.1) entry.2
    match position with
    | some n =>
      some { s with users := s.users.set visit.user_index (entry.1, entry.2.eraseIdx n) }
    | none => some s

/-- `Store::add_visit_to_location` (`store.rs`): append
`(visit position, person position)` to the place's bucket (unordered). -/
def Store.add_visit_to_location (s : Store) (visit : Visit) (user : User) :
    Option Store :=
  match s.locations[visit.location_index]? with
  | none => none
  | some entry =>
    some { s with locations :=
      s.locations.set visit.location_index (entry.1, entry.2 ++ [(visit.index, user.index)]) }

/-- `Store::remove_visit_from_location` (`store.rs`). -/
def Store.remove_visit_from_location (s : Store) (visit : Visit) : Option Store :=
  match s.locations[visit.location_index]? with
  | none => none
  | some entry =>
    let position := findIdxP (fun p => visit.index == p.1) entry.2
    match position with
    | some n =>
      some { s with locations :=
        s.locations.set visit.location_index (entry.1, entry.2.eraseIdx n) }
    | none => some s

/-- `Store::get_visit_user` (`store.rs`): resolve a visit's person foreign
key, reporting a validation error on field "user" when it dangles. -/
def Store.get_visit_user (s : Store) (user_id : Nat) : Except StoreError User :=
  let user_index := id_to_index user_id
  if h : s.users.length ≤ user_index then
    .error (.InvalidEntity ⟨"user", "User with ID " ++ toString user_id ++ " not exists"⟩)
  else .ok (s.users.get ⟨user_index, by omega⟩).1

/-- `Store::get_visit_location` (`store.rs`): resolve a visit's place foreign
key, reporting a validation error on field "location" when it dangles. -/
def Store.get_visit_location (s : Store) (location_id : Nat) : Except StoreError Location :=
  let location_index := id_to_index location_id
  if h : s.locations.length ≤ location_index then
    .error (.InvalidEntity ⟨"location",
      "Location with ID " ++ toString location_id ++ " not exists"⟩)
  else .ok (s.locations.get ⟨location_index, by omega⟩).1

/-- `Store::add_visit` (`store.rs`): position checks, field validation,
foreign-key resolution, then index insertion (person bucket, place bucket)
followed by the visit-table push. -/
def Store.add_visit (s : Store) (visit : Visit) :
    Option (Except StoreError Empty × Store) :=
  let visit_index := visit.index
  if s.visits.length > visit_index then some (.error .EntryExists, s)
  else if s.visits.length ≠ visit_index then
    some (.error (.UnexpectedIndex s.visits.length visit_index), s)
  else
    match visit.valid with
    | .error e => some (.error (.InvalidEntity e), s)
    | .ok _ =>
      match s.get_visit_user visit.user with
      | .error e => some (.error e, s)
      | .ok user =>
        match s.get_visit_location visit.location with
        | .error e => some (.error e, s)
        | .ok location =>
          match s.add_visit_to_user visit location with
          | none => none
          | some s1 =>
            match s1.add_visit_to_location visit user with
            | none => none
            | some s2 => some (.ok ⟨⟩, { s2 with visits := s2.visits ++ [visit] })

/-- Field-by-field application of a visit patch (the `if let Some` chain of
`Store::update_visit`); note the patch has no id field. -/
def applyVisitData (v : Visit) (d : VisitData) : Visit :=
  { v with
    location := d.location.getD v.location
    user := d.user.getD v.user
    visited_at := d.visited_at.getD v.visited_at
    mark := d.mark.getD v.mark }

/-- `Store::update_visit` (`store.rs`): existence check (`<=`, correct),
patch, validation, foreign-key resolution (place first, then person), then
commit: replace the table entry, and remove/re-insert the affected index
entries when person, place or visited-at changed. -/
def Store.update_visit (s : Store) (id : Nat) (visit_data : VisitData) :
    Option (Except StoreError Empty × Store) :=
  let visit_index := id_to_index id
  if h : s.visits.length ≤ visit_index then some (.error .EntityNotExists, s)
  else
    let original_visit := s.visits.get ⟨visit_index, by omega⟩
    let updated_visit := applyVisitData original_visit visit_data
    match updated_visit.valid with
    | .error e => some (.error (.InvalidEntity e), s)
    | .ok _ =>
      match s.get_visit_location updated_visit.location with
      | .error e => some (.error e, s)
      | .ok location =>
        match s.get_visit_user updated_visit.user with
        | .error e => some (.error e, s)
        | .ok user =>
          let s1 : Store := { s with visits := s.visits.set visit_index updated_visit }
          let step1 :=
            if original_visit.user ≠ updated_visit.user ∨
                original_visit.visited_at ≠ updated_visit.visited_at ∨
                original_visit.location ≠ updated_visit.location then
              match s1.remove_visit_from_user original_visit with
              | none => none
              | some sa => sa.add_visit_to_user updated_visit location
            else some s1
          match step1 with
          | none => none
          | some s2 =>
            let step2 :=
              if original_visit.location ≠ updated_visit.location ∨
                  original_visit.user ≠ updated_visit.user then
                match s2.remove_visit_from_location original_visit with
                | none => none
                | some sb => sb.add_visit_to_location updated_visit user
              else some s2
            match step2 with
            | none => none
            | some s3 => some (.ok ⟨⟩, s3)

/-- Filter predicate of `Store::get_user_visits` (all bounds exclusive,
country an exact match). -/
def userVisitPred (options : GetUserVisitsOptions) (vl : Visit × Location) : Bool :=
  (match options.from_date with
   | some from_date => decide (from_date < vl.1.visited_at)
   | none => true)
  && (match options.to_date with
      | some to_date => decide (vl.1.visited_at < to_date)
      | none => true)
  && (match options.country with
      | some country => vl.2.country == country
      | none => true)
  && (match options.to_distance with
      | some to_distance => decide (vl.2.distance < to_distance)
      | none => true)

/-- `Store::get_user_visits` (`store.rs`): walk the person's bucket, resolve
each entry to its visit and place, filter, and project. -/
def Store.get_user_visits (s : Store) (user_id : Nat) (options : GetUserVisitsOptions) :
    Option (Except StoreError UserVisits) :=
  let user_index := id_to_index user_id
  if h : s.users.length ≤ user_index then some (.error .EntityNotExists)
  else
    match resolveList
        (fun p => do
          let v ← s.visits[p.1]?
          let l ← s.locations[p.2]?
          some (v, l.1))
        (s.users.get ⟨user_index, by omega⟩).2 with
    | none => none
    | some pairs =>
      some (.ok ⟨(pairs.filter (userVisitPred options)).map
        (fun vl => ⟨vl.1.mark, vl.1.visited_at, vl.2.place⟩)⟩)

/-- Age filter cutoff of `Store::get_location_avg`: the construction-time
"now" with its year decreased by the requested age (`None` when `with_year`
fails, in which case the source drops the filter). -/
def Store.age_cutoff (s : Store) (age : Int) : Option Int :=
  withYearTs s.now (yearOfTs s.now - age)

/-- Filter predicate of `Store::get_location_avg` (both date bounds
exclusive, gender exact, both birth-date comparisons strict). -/
def locationAvgPred (options : GetLocationAvgOptions) (from_age to_age : Option Int)
    (vu : Visit × User) : Bool :=
  (match options.from_date with
   | some from_date => decide (vu.1.visited_at > from_date)
   | none => true)
  && (match options.to_date with
      | some to_date => decide (vu.1.visited_at < to_date)
      | none => true)
  && (match options.gender with
      | some gender => vu.2.gender == gender
      | none => true)
  && (match from_age with
      | some from_age => decide (vu.2.birth_date < from_age)
      | none => true)
  && (match to_age with
      | some to_age => decide (vu.2.birth_date > to_age)
      | none => true)

/-- Resolution step of `Store::get_location_avg`: each bucket entry to its
visit and person. -/
def Store.location_visit_pairs (s : Store) (bucket : List (Nat × Nat)) :
    Option (List (Visit × User)) :=
  resolveList
    (fun p => do
      let v ← s.visits[p.1]?
      let u ← s.users[p.2]?
      some (v, u.1))
    bucket

/-- `Store::get_location_avg` (`store.rs`): walk the place's bucket, resolve,
filter, fold mark sum and count, and return the default rating 0.0 when the
count is zero, otherwise the rounded average. -/
def Store.get_location_avg (s : Store) (location_id : Nat)
    (options : GetLocationAvgOptions) : Option (Except StoreError LocationRate) :=
  let location_index := id_to_index location_id
  if h : s.locations.length ≤ location_index then some (.error .EntityNotExists)
  else
    let from_age := options.from_age.bind (fun a => s.age_cutoff a)
    let to_age := options.to_age.bind (fun a => s.age_cutoff a)
    match s.location_visit_pairs (s.locations.get ⟨location_index, by omega⟩).2 with
    | none => none
    | some pairs =>
      let filtered := pairs.filter (locationAvgPred options from_age to_age)
      let sc := filtered.foldl (fun acc vu => (acc.1 + vu.1.mark, acc.2 + 1)) (0, 0)
      if sc.2 = 0 then some (.ok LocationRate.default)
      else some (.ok ⟨avg_mark sc.1 sc.2⟩)

/-- The states reachable from a fresh store by any sequence of store
operations (read operations do not change the state; mutating operations
contribute their post-state whenever they do not panic — a panic has no
post-state). -/
inductive Reachable : Store → Prop where
  | init : ∀ now, Reachable (Store.new now)
  | add_user_step : ∀ s u r s₂,
      Reachable s → s.add_user u = (r, s₂) → Reachable s₂
  | update_user_step : ∀ s id d r s₂,
      Reachable s → s.update_user id d = some (r, s₂) → Reachable s₂
  | add_location_step : ∀ s l r s₂,
      Reachable s → s.add_location l = (r, s₂) → Reachable s₂
  | update_location_step : ∀ s id d r s₂,
      Reachable s → s.update_location id d = some (r, s₂) → Reachable s₂
  | add_visit_step : ∀ s v r s₂,
      Reachable s → s.add_visit v = some (r, s₂) → Reachable s₂
  | update_visit_step : ∀ s id d r s₂,
      Reachable s → s.update_visit id d = some (r, s₂) → Reachable s₂

end Hlcup

namespace Hlcup

/-! Generic lemmas about the positional list operations used by the index
maintenance code. -/

/-- Setting a position of a list to the value it already holds is the
identity. -/
theorem set_self_of_getElem {α : Type _} {l : List α} {i : Nat} {x : α}
    (h : l[i]? = some x) : l.set i x = l := by
  induction l generalizing i with
  | nil => simp at h
  | cons a as ih =>
    cases i with
    | zero =>
      simp only [List.getElem?_cons_zero, Option.some.injEq] at h
      simp [h]
    | succ n =>
      simp only [List.getElem?_cons_succ] at h
      simp [ih h]

/-- A found position is inside the list. -/
theorem findIdxP_lt_length {α : Type _} {g : α → Bool} :
    ∀ {l : List α} {n : Nat}, findIdxP g l = some n → n < l.length := by
  intro l
  induction l with
  | nil => intro n h; simp [findIdxP] at h
  | cons x rest ih =>
    intro n h
    unfold findIdxP at h
    cases hx : g x with
    | true =>
      rw [hx] at h
      simp at h
      subst h
      simp
    | false =>
      rw [hx] at h
      simp at h
      rcases h with ⟨m, hm, rfl⟩
      have := ih hm
      simp
      omega

/-- `findIdxP` only looks at the predicate's values on the list. -/
theorem findIdxP_congr {α : Type _} {g g₂ : α → Bool} :
    ∀ {l : List α}, (∀ x ∈ l, g x = g₂ x) → findIdxP g l = findIdxP g₂ l := by
  intro l
  induction l with
  | nil => intro _; rfl
  | cons x rest ih =>
    intro h
    unfold findIdxP
    rw [h x (by simp), ih (fun y hy => h y (by simp [hy]))]

/-- When the possibly-panicking predicate is total on the list, the monadic
position search reduces to the pure one. -/
theorem findIdxM_eq {α : Type _} {f : α → Option Bool} {g : α → Bool} :
    ∀ {l : List α}, (∀ x ∈ l, f x = some (g x)) →
      findIdxM f l = some (findIdxP g l) := by
  intro l
  induction l with
  | nil => intro _; rfl
  | cons x rest ih =>
    intro h
    have hx : f x = some (g x) := h x (by simp)
    unfold findIdxM findIdxP
    rw [hx]
    by_cases hgx : g x
    · simp [hgx]
    · simp only [hgx, if_false]
      rw [ih (fun y hy => h y (by simp [hy]))]
      cases findIdxP g rest <;> simp

/-- When the possibly-panicking element map is total on the list, the
resolution reduces to a plain `map`. -/
theorem resolveList_eq {α β : Type _} {f : α → Option β} {g : α → β} :
    ∀ {l : List α}, (∀ x ∈ l, f x = some (g x)) →
      resolveList f l = some (l.map g) := by
  intro l
  induction l with
  | nil => intro _; rfl
  | cons x rest ih =>
    intro h
    have hx : f x = some (g x) := h x (by simp)
    unfold resolveList
    rw [hx, ih (fun y hy => h y (by simp [hy]))]
    simp

/-- The combined "find the first later entry, insert there, else append"
operation of `add_visit_to_user` (and, with a constant-false predicate, the
append of `add_visit_to_location`). -/
def bucketInsert {α : Type _} (g : α → Bool) (x : α) (l : List α) : List α :=
  match findIdxP g l with
  | some n => l.insertIdx n x
  | none => l ++ [x]

/-- `bucketInsert` only looks at the predicate's values on the list. -/
theorem bucketInsert_congr {α : Type _} {g g₂ : α → Bool} {x : α} {l : List α}
    (h : ∀ y ∈ l, g y = g₂ y) : bucketInsert g x l = bucketInsert g₂ x l := by
  unfold bucketInsert
  rw [findIdxP_congr h]

/-- Membership in an inserted bucket. -/
theorem mem_bucketInsert {α : Type _} {g : α → Bool} {x y : α} {l : List α} :
    y ∈ bucketInsert g x l ↔ y = x ∨ y ∈ l := by
  unfold bucketInsert
  cases hf : findIdxP g l with
  | none => simp [or_comm]
  | some n => exact List.mem_insertIdx (le_of_lt (findIdxP_lt_length hf))

/-- The combined "find the first matching entry and remove it, else leave the
list alone" operation of `remove_visit_from_user` / `remove_visit_from_location`
is `eraseP`. -/
theorem removeFirst_eq_eraseP {α : Type _} (g : α → Bool) :
    ∀ l : List α,
      (match findIdxP g l with
       | some n => l.eraseIdx n
       | none => l) = List.eraseP g l := by
  intro l
  induction l with
  | nil => rfl
  | cons x rest ih =>
    cases hx : g x with
    | true => simp [findIdxP, hx, List.eraseP_cons]
    | false =>
      cases hf : findIdxP g rest with
      | none =>
        have ih₂ : rest = List.eraseP g rest := by rw [hf] at ih; exact ih
        simp [findIdxP, hx, hf, List.eraseP_cons, ← ih₂]
      | some n =>
        have ih₂ : rest.eraseIdx n = List.eraseP g rest := by rw [hf] at ih; exact ih
        simp [findIdxP, hx, hf, List.eraseP_cons, List.eraseIdx_cons_succ, ← ih₂]

/-- Number of bucket entries referencing visit position `i`. -/
def countFst (i : Nat) : List (Nat × Nat) → Nat
  | [] => 0
  | p :: rest => (if p.1 = i then 1 else 0) + countFst i rest

theorem countFst_nil (i : Nat) : countFst i [] = 0 := rfl

theorem countFst_cons (i : Nat) (p : Nat × Nat) (rest : List (Nat × Nat)) :
    countFst i (p :: rest) = (if p.1 = i then 1 else 0) + countFst i rest := rfl

theorem countFst_append (i : Nat) (l₁ l₂ : List (Nat × Nat)) :
    countFst i (l₁ ++ l₂) = countFst i l₁ + countFst i l₂ := by
  induction l₁ with
  | nil => simp [countFst_nil]
  | cons p rest ih =>
    rw [List.cons_append, countFst_cons, countFst_cons, ih]
    omega

theorem countFst_insertIdx {i : Nat} {x : Nat × Nat} :
    ∀ {n : Nat} {l : List (Nat × Nat)}, n ≤ l.length →
      countFst i (l.insertIdx n x) = (if x.1 = i then 1 else 0) + countFst i l := by
  intro n
  induction n with
  | zero => intro l _; rw [List.insertIdx_zero, countFst_cons]
  | succ m ih =>
    intro l hl
    cases l with
    | nil => simp at hl
    | cons a rest =>
      rw [List.insertIdx_succ_cons, countFst_cons, countFst_cons,
        ih (by simpa using hl)]
      omega

theorem countFst_bucketInsert {g : (Nat × Nat) → Bool} {x : Nat × Nat} {i : Nat}
    {l : List (Nat × Nat)} :
    countFst i (bucketInsert g x l) = (if x.1 = i then 1 else 0) + countFst i l := by
  unfold bucketInsert
  cases hf : findIdxP g l with
  | none =>
    rw [countFst_append, countFst_cons, countFst_nil]
    omega
  | some n => exact countFst_insertIdx (le_of_lt (findIdxP_lt_length hf))

theorem countFst_pos_of_mem {p : Nat × Nat} {l : List (Nat × Nat)} (h : p ∈ l) :
    0 < countFst p.1 l := by
  induction l with
  | nil => simp at h
  | cons a rest ih =>
    rcases List.mem_cons.mp h with rfl | h
    · rw [countFst_cons]
      simp
    · have := ih h
      rw [countFst_cons]
      omega

theorem fst_ne_of_countFst_zero {i : Nat} {l : List (Nat × Nat)}
    (h : countFst i l = 0) : ∀ p ∈ l, p.1 ≠ i := by
  intro p hp
  intro hpi
  have := countFst_pos_of_mem hp
  rw [hpi] at this
  omega

/-- The bucket-entry removal of the source: erase the first entry whose visit
position is `i`. -/
def bucketRemove (i : Nat) (l : List (Nat × Nat)) : List (Nat × Nat) :=
  List.eraseP (fun p => i == p.1) l

theorem countFst_bucketRemove_self (i : Nat) (l : List (Nat × Nat)) :
    countFst i (bucketRemove i l) = countFst i l - 1 := by
  induction l with
  | nil => rfl
  | cons p rest ih =>
    simp only [bucketRemove, List.eraseP_cons]
    cases hgx : (i == p.1) with
    | true =>
      have hp : p.1 = i := by
        have h₂ := hgx
        simp only [beq_iff_eq] at h₂
        exact h₂.symm
      simp only [hgx, cond_true]
      rw [countFst_cons, if_pos hp]
      omega
    | false =>
      have hp : p.1 ≠ i := by
        have h₂ := hgx
        simp only [beq_eq_false_iff_ne, ne_eq] at h₂
        exact fun h => h₂ h.symm
      simp only [hgx, cond_false]
      rw [countFst_cons, if_neg hp, countFst_cons, if_neg hp]
      have hrw : List.eraseP (fun q => i == q.1) rest = bucketRemove i rest := rfl
      rw [hrw, ih]
      omega

theorem countFst_bucketRemove_ne {i j : Nat} (h : j ≠ i) (l : List (Nat × Nat)) :
    countFst j (bucketRemove i l) = countFst j l := by
  induction l with
  | nil => rfl
  | cons p rest ih =>
    simp only [bucketRemove, List.eraseP_cons]
    cases hgx : (i == p.1) with
    | true =>
      have hp : p.1 = i := by
        have h₂ := hgx
        simp only [beq_iff_eq] at h₂
        exact h₂.symm
      simp only [hgx, cond_true]
      rw [countFst_cons, if_neg (by omega : p.1 ≠ j)]
      omega
    | false =>
      simp only [hgx, cond_false]
      rw [countFst_cons, countFst_cons]
      have hrw : List.eraseP (fun q => i == q.1) rest = bucketRemove i rest := rfl
      rw [hrw, ih]

theorem mem_of_mem_bucketRemove {i : Nat} {l : List (Nat × Nat)} {p : Nat × Nat}
    (h : p ∈ bucketRemove i l) : p ∈ l :=
  List.mem_of_mem_eraseP h

theorem pairwise_bucketRemove {i : Nat} {l : List (Nat × Nat)}
    {R : (Nat × Nat) → (Nat × Nat) → Prop} (h : l.Pairwise R) :
    (bucketRemove i l).Pairwise R :=
  List.Pairwise.sublist (List.eraseP_sublist l) h

/-- Transport a key-sortedness statement along a pointwise-equal key. -/
theorem pairwise_key_congr {α : Type _} {key key₂ : α → Int} {l : List α}
    (h : ∀ y ∈ l, key y = key₂ y)
    (hl : l.Pairwise fun a b => key a ≤ key b) :
    l.Pairwise fun a b => key₂ a ≤ key₂ b := by
  refine hl.imp_of_mem ?_
  intro a b ha hb hab
  rw [← h a ha, ← h b hb]
  exact hab

/-- Inserting at the position found by "first strictly later key" keeps a
bucket sorted by key. -/
theorem pairwise_bucketInsert {α : Type _} (key : α → Int) (x : α) (g : α → Bool)
    {l : List α}
    (hg : ∀ y ∈ l, g y = decide (key x < key y))
    (hl : l.Pairwise fun a b => key a ≤ key b) :
    (bucketInsert g x l).Pairwise fun a b => key a ≤ key b := by
  induction l with
  | nil =>
    unfold bucketInsert findIdxP
    simp
  | cons a rest ih =>
    rw [List.pairwise_cons] at hl
    have hga : g a = decide (key x < key a) := hg a (by simp)
    cases hgx : g a with
    | true =>
      have hlt : key x < key a := of_decide_eq_true (hgx ▸ hga).symm
      have hbi : bucketInsert g x (a :: rest) = x :: a :: rest := by
        unfold bucketInsert
        have hfi : findIdxP g (a :: rest) = some 0 := by simp [findIdxP, hgx]
        rw [hfi]
        rfl
      rw [hbi]
      refine List.pairwise_cons.mpr ⟨?_, List.pairwise_cons.mpr hl⟩
      intro b hb
      rcases List.mem_cons.mp hb with rfl | hb
      · exact le_of_lt hlt
      · exact le_trans (le_of_lt hlt) (hl.1 b hb)
    | false =>
      have hnlt : ¬ key x < key a := of_decide_eq_false (hgx ▸ hga).symm
      have ih₂ := ih (fun y hy => hg y (by simp [hy])) hl.2
      unfold bucketInsert at ih₂
      cases hf : findIdxP g rest with
      | some n =>
        rw [hf] at ih₂
        have hbi : bucketInsert g x (a :: rest) = a :: rest.insertIdx n x := by
          unfold bucketInsert
          have hfi : findIdxP g (a :: rest) = some (n + 1) := by
            simp [findIdxP, hgx, hf]
          rw [hfi]
          rfl
        rw [hbi]
        refine List.pairwise_cons.mpr ⟨?_, ih₂⟩
        intro b hb
        rw [List.mem_insertIdx (le_of_lt (findIdxP_lt_length hf))] at hb
        rcases hb with rfl | hb
        · exact le_of_not_lt hnlt
        · exact hl.1 b hb
      | none =>
        rw [hf] at ih₂
        have hbi : bucketInsert g x (a :: rest) = a :: (rest ++ [x]) := by
          unfold bucketInsert
          have hfi : findIdxP g (a :: rest) = none := by
            simp [findIdxP, hgx, hf]
          rw [hfi]
          rfl
        rw [hbi]
        refine List.pairwise_cons.mpr ⟨?_, ih₂⟩
        intro b hb
        rcases List.mem_append.mp hb with hb | hb
        · exact hl.1 b hb
        · simp only [List.mem_singleton] at hb
          subst hb
          exact le_of_not_lt hnlt

end Hlcup

namespace Hlcup

/-! The store invariant tying the visit table to the two index families. -/

/-- Required number of references to visit position `vi` in the bucket of the
person at position `ui`: one exactly when the visit exists and currently
belongs to that person. -/
def uCond (s : Store) (ui vi : Nat) : Nat :=
  match s.visits[vi]? with
  | some v => if v.user_index = ui then 1 else 0
  | none => 0

/-- Required number of references to visit position `vi` in the bucket of the
place at position `li`. -/
def lCond (s : Store) (li vi : Nat) : Nat :=
  match s.visits[vi]? with
  | some v => if v.location_index = li then 1 else 0
  | none => 0

/-- The store invariant: dense ids, resolvable foreign keys, and index buckets
that mirror the visit table exactly (with the person buckets sorted by
visited-at). -/
structure Inv (s : Store) : Prop where
  user_fk : ∀ v ∈ s.visits, v.user_index < s.users.length
  loc_fk : ∀ v ∈ s.visits, v.location_index < s.locations.length
  vids : ∀ (i : Nat) (v : Visit), s.visits[i]? = some v → v.index = i
  uids : ∀ (i : Nat) (e : User × List (Nat × Nat)), s.users[i]? = some e → e.1.index = i
  lids : ∀ (i : Nat) (e : Location × List (Nat × Nat)), s.locations[i]? = some e → e.1.index = i
  ubucket : ∀ (ui : Nat) (e : User × List (Nat × Nat)), s.users[ui]? = some e →
    ∀ vi : Nat, countFst vi e.2 = uCond s ui vi
  usnd : ∀ (ui : Nat) (e : User × List (Nat × Nat)), s.users[ui]? = some e →
    ∀ p ∈ e.2, p.2 < s.locations.length
  usorted : ∀ (ui : Nat) (e : User × List (Nat × Nat)), s.users[ui]? = some e →
    e.2.Pairwise fun a b => visitAt s.visits a.1 ≤ visitAt s.visits b.1
  lbucket : ∀ (li : Nat) (e : Location × List (Nat × Nat)), s.locations[li]? = some e →
    ∀ vi : Nat, countFst vi e.2 = lCond s li vi
  lsnd : ∀ (li : Nat) (e : Location × List (Nat × Nat)), s.locations[li]? = some e →
    ∀ p ∈ e.2, p.2 < s.users.length

/-- A person-bucket entry references an existing visit of that person. -/
theorem Inv.ubucket_fst {s : Store} (hs : Inv s) {ui : Nat}
    {e : User × List (Nat × Nat)} (he : s.users[ui]? = some e)
    {p : Nat × Nat} (hp : p ∈ e.2) :
    ∃ v, s.visits[p.1]? = some v ∧ v.user_index = ui := by
  have hc := hs.ubucket ui e he p.1
  have hpos := countFst_pos_of_mem hp
  rw [hc] at hpos
  unfold uCond at hpos
  cases hv : s.visits[p.1]? with
  | none => rw [hv] at hpos; simp at hpos
  | some v =>
    rw [hv] at hpos
    refine ⟨v, rfl, ?_⟩
    by_contra hne
    simp [hne] at hpos

/-- A person-bucket entry references a position inside the visit table. -/
theorem Inv.ubucket_fst_lt {s : Store} (hs : Inv s) {ui : Nat}
    {e : User × List (Nat × Nat)} (he : s.users[ui]? = some e)
    {p : Nat × Nat} (hp : p ∈ e.2) : p.1 < s.visits.length := by
  rcases hs.ubucket_fst he hp with ⟨v, hv, _⟩
  rcases List.getElem?_eq_some.mp hv with ⟨h, _⟩
  exact h

/-- A place-bucket entry references an existing visit of that place. -/
theorem Inv.lbucket_fst {s : Store} (hs : Inv s) {li : Nat}
    {e : Location × List (Nat × Nat)} (he : s.locations[li]? = some e)
    {p : Nat × Nat} (hp : p ∈ e.2) :
    ∃ v, s.visits[p.1]? = some v ∧ v.location_index = li := by
  have hc := hs.lbucket li e he p.1
  have hpos := countFst_pos_of_mem hp
  rw [hc] at hpos
  unfold lCond at hpos
  cases hv : s.visits[p.1]? with
  | none => rw [hv] at hpos; simp at hpos
  | some v =>
    rw [hv] at hpos
    refine ⟨v, rfl, ?_⟩
    by_contra hne
    simp [hne] at hpos

/-- A place-bucket entry references a position inside the visit table. -/
theorem Inv.lbucket_fst_lt {s : Store} (hs : Inv s) {li : Nat}
    {e : Location × List (Nat × Nat)} (he : s.locations[li]? = some e)
    {p : Nat × Nat} (hp : p ∈ e.2) : p.1 < s.visits.length := by
  rcases hs.lbucket_fst he hp with ⟨v, hv, _⟩
  rcases List.getElem?_eq_some.mp hv with ⟨h, _⟩
  exact h

/-! Closed forms of the index-maintenance helpers. -/

/-- Closed form of `add_visit_to_user` when the person exists and the bucket
is table-consistent. -/
theorem add_visit_to_user_eq (s : Store) (visit : Visit) (location : Location)
    {e : User × List (Nat × Nat)} (he : s.users[visit.user_index]? = some e)
    (hb : ∀ p ∈ e.2, p.1 < s.visits.length) :
    s.add_visit_to_user visit location =
      some { s with users := (s.users.set visit.user_index
        (e.1, bucketInsert (fun p => decide (visit.visited_at < visitAt s.visits p.1))
          (visit.index, location.index) e.2)) } := by
  unfold Store.add_visit_to_user
  rw [he]
  dsimp only
  have hfm : findIdxM
      (fun p => (s.visits[p.1]?).map (fun v => decide (visit.visited_at < v.visited_at)))
      e.2
      = some (findIdxP (fun p => decide (visit.visited_at < visitAt s.visits p.1)) e.2) := by
    apply findIdxM_eq
    intro p hp
    rw [List.getElem?_eq_getElem (hb p hp)]
    have : visitAt s.visits p.1 = (s.visits.get ⟨p.1, hb p hp⟩).visited_at := by
      unfold visitAt
      rw [List.getElem?_eq_getElem (hb p hp)]
      rfl
    rw [this]
    rfl
  rw [hfm]
  unfold bucketInsert
  cases findIdxP (fun p => decide (visit.visited_at < visitAt s.visits p.1)) e.2 with
  | some n => rfl
  | none => rfl

/-- Closed form of `remove_visit_from_user` when the person exists. -/
theorem remove_visit_from_user_eq (s : Store) (visit : Visit)
    {e : User × List (Nat × Nat)} (he : s.users[visit.user_index]? = some e) :
    s.remove_visit_from_user visit =
      some { s with users :=
        (s.users.set visit.user_index (e.1, bucketRemove visit.index e.2)) } := by
  unfold Store.remove_visit_from_user
  rw [he]
  dsimp only
  cases hf : findIdxP (fun p => visit.index == p.1) e.2 with
  | some n =>
    have hrm := removeFirst_eq_eraseP (fun p => visit.index == p.1) e.2
    rw [hf] at hrm
    have hbr : bucketRemove visit.index e.2 = e.2.eraseIdx n := by
      unfold bucketRemove
      exact hrm.symm
    rw [hbr]
  | none =>
    have hrm := removeFirst_eq_eraseP (fun p => visit.index == p.1) e.2
    rw [hf] at hrm
    have hbr : bucketRemove visit.index e.2 = e.2 := by
      unfold bucketRemove
      exact hrm.symm
    rw [hbr]
    have hset : s.users.set visit.user_index (e.1, e.2) = s.users := by
      have hpe : (e.1, e.2) = e := rfl
      rw [hpe]
      exact set_self_of_getElem he
    rw [hset]

/-- Closed form of `add_visit_to_location` when the place exists. -/
theorem add_visit_to_location_eq (s : Store) (visit : Visit) (user : User)
    {e : Location × List (Nat × Nat)} (he : s.locations[visit.location_index]? = some e) :
    s.add_visit_to_location visit user =
      some { s with locations := (s.locations.set visit.location_index
        (e.1, e.2 ++ [(visit.index, user.index)])) } := by
  unfold Store.add_visit_to_location
  rw [he]

/-- Closed form of `remove_visit_from_location` when the place exists. -/
theorem remove_visit_from_location_eq (s : Store) (visit : Visit)
    {e : Location × List (Nat × Nat)} (he : s.locations[visit.location_index]? = some e) :
    s.remove_visit_from_location visit =
      some { s with locations :=
        (s.locations.set visit.location_index (e.1, bucketRemove visit.index e.2)) } := by
  unfold Store.remove_visit_from_location
  rw [he]
  dsimp only
  cases hf : findIdxP (fun p => visit.index == p.1) e.2 with
  | some n =>
    have hrm := removeFirst_eq_eraseP (fun p => visit.index == p.1) e.2
    rw [hf] at hrm
    have hbr : bucketRemove visit.index e.2 = e.2.eraseIdx n := by
      unfold bucketRemove
      exact hrm.symm
    rw [hbr]
  | none =>
    have hrm := removeFirst_eq_eraseP (fun p => visit.index == p.1) e.2
    rw [hf] at hrm
    have hbr : bucketRemove visit.index e.2 = e.2 := by
      unfold bucketRemove
      exact hrm.symm
    rw [hbr]
    have hset : s.locations.set visit.location_index (e.1, e.2) = s.locations := by
      have hpe : (e.1, e.2) = e := rfl
      rw [hpe]
      exact set_self_of_getElem he
    rw [hset]

end Hlcup

namespace Hlcup

/-! Case-analysis helpers for list reads after a push or an in-place set. -/

theorem getElem?_concat_cases {α : Type _} {l : List α} {x : α} {i : Nat} {y : α}
    (h : (l ++ [x])[i]? = some y) :
    (i < l.length ∧ l[i]? = some y) ∨ (i = l.length ∧ y = x) := by
  rcases lt_trichotomy i l.length with hi | hi | hi
  · left
    refine ⟨hi, ?_⟩
    rw [List.getElem?_append, if_pos hi] at h
    exact h
  · right
    subst hi
    rw [List.getElem?_concat_length] at h
    exact ⟨rfl, (Option.some_inj.mp h).symm⟩
  · exfalso
    rw [List.getElem?_eq_none (by simp; omega)] at h
    simp at h

theorem getElem?_set_cases {α : Type _} {l : List α} {x : α} {i j : Nat} {y : α}
    (h : (l.set i x)[j]? = some y) :
    (i = j ∧ i < l.length ∧ y = x) ∨ (i ≠ j ∧ l[j]? = some y) := by
  rw [List.getElem?_set] at h
  by_cases hij : i = j
  · left
    rw [if_pos hij] at h
    by_cases hi : i < l.length
    · rw [if_pos hi] at h
      exact ⟨hij, hi, (Option.some_inj.mp h).symm⟩
    · rw [if_neg hi] at h
      simp at h
  · right
    rw [if_neg hij] at h
    exact ⟨hij, h⟩

theorem mem_of_getElem?_some {α : Type _} {l : List α} {i : Nat} {y : α}
    (h : l[i]? = some y) : y ∈ l := by
  rcases List.getElem?_eq_some.mp h with ⟨hlt, rfl⟩
  exact List.getElem_mem hlt

/-- `uCond` only depends on the visit table. -/
theorem uCond_visits_eq {s s₂ : Store} (h : s₂.visits = s.visits) (ui vi : Nat) :
    uCond s₂ ui vi = uCond s ui vi := by
  unfold uCond
  rw [h]

/-- `lCond` only depends on the visit table. -/
theorem lCond_visits_eq {s s₂ : Store} (h : s₂.visits = s.visits) (li vi : Nat) :
    lCond s₂ li vi = lCond s li vi := by
  unfold lCond
  rw [h]

/-! Preservation of the invariant by every store operation. -/

/-- The fresh store satisfies the invariant. -/
theorem Inv_new (now : Int) : Inv (Store.new now) := by
  refine ⟨?_, ?_, ?_, ?_, ?_, ?_, ?_, ?_, ?_, ?_⟩
  · intro v hv; simp [Store.new] at hv
  · intro v hv; simp [Store.new] at hv
  · intro i v hv; simp [Store.new] at hv
  · intro i e he; simp [Store.new] at he
  · intro i e he; simp [Store.new] at he
  · intro ui e he; simp [Store.new] at he
  · intro ui e he; simp [Store.new] at he
  · intro ui e he; simp [Store.new] at he
  · intro li e he; simp [Store.new] at he
  · intro li e he; simp [Store.new] at he

/-- `add_user` preserves the invariant. -/
theorem Inv_add_user {s : Store} {u : User} {r : Except StoreError Empty} {s₂ : Store}
    (hs : Inv s) (h : s.add_user u = (r, s₂)) : Inv s₂ := by
  unfold Store.add_user at h
  dsimp only at h
  by_cases h1 : s.users.length > id_to_index u.id
  · rw [if_pos h1] at h
    cases h
    exact hs
  · rw [if_neg h1] at h
    by_cases h2 : s.users.length ≠ id_to_index u.id
    · rw [if_pos h2] at h
      cases h
      exact hs
    · rw [if_neg h2] at h
      have hlen : s.users.length = id_to_index u.id := not_ne_iff.mp h2
      cases hv : u.valid with
      | error e =>
        rw [hv] at h
        cases h
        exact hs
      | ok w =>
        rw [hv] at h
        cases h
        refine ⟨?_, ?_, ?_, ?_, ?_, ?_, ?_, ?_, ?_, ?_⟩
        · intro v hv2
          have := hs.user_fk v hv2
          simp only [List.length_append, List.length_cons, List.length_nil]
          omega
        · exact hs.loc_fk
        · exact hs.vids
        · intro i e he
          rcases getElem?_concat_cases he with ⟨hi, hold⟩ | ⟨hi, rfl⟩
          · exact hs.uids i e hold
          · show id_to_index u.id = i
            omega
        · exact hs.lids
        · intro ui e he vi
          rcases getElem?_concat_cases he with ⟨hi, hold⟩ | ⟨hi, rfl⟩
          · exact hs.ubucket ui e hold vi
          · rw [countFst_nil]
            unfold uCond
            cases hvv : s.visits[vi]? with
            | none => rfl
            | some v =>
              have hlt := hs.user_fk v (mem_of_getElem?_some hvv)
              have hne : v.user_index ≠ ui := by omega
              show 0 = if v.user_index = ui then 1 else 0
              rw [if_neg hne]
        · intro ui e he p hp
          rcases getElem?_concat_cases he with ⟨hi, hold⟩ | ⟨hi, rfl⟩
          · exact hs.usnd ui e hold p hp
          · simp at hp
        · intro ui e he
          rcases getElem?_concat_cases he with ⟨hi, hold⟩ | ⟨hi, rfl⟩
          · exact hs.usorted ui e hold
          · simp
        · intro li e he vi
          exact hs.lbucket li e he vi
        · intro li e he p hp
          have := hs.lsnd li e he p hp
          simp only [List.length_append, List.length_cons, List.length_nil]
          omega

/-- `update_user` preserves the invariant. -/
theorem Inv_update_user {s : Store} {uid : Nat} {d : UserData}
    {r : Except StoreError Empty} {s₂ : Store}
    (hs : Inv s) (h : s.update_user uid d = some (r, s₂)) : Inv s₂ := by
  unfold Store.update_user at h
  dsimp only at h
  by_cases h1 : s.users.length < id_to_index uid
  · rw [if_pos h1] at h
    cases h
    exact hs
  · rw [if_neg h1] at h
    cases hget : s.users[id_to_index uid]? with
    | none =>
      rw [hget] at h
      simp at h
    | some e =>
      rw [hget] at h
      dsimp only at h
      cases hv : (applyUserData e.1 d).valid with
      | error err =>
        rw [hv] at h
        cases h
        exact hs
      | ok w =>
        rw [hv] at h
        cases h
        refine ⟨?_, ?_, ?_, ?_, ?_, ?_, ?_, ?_, ?_, ?_⟩
        · intro v hv2
          have := hs.user_fk v hv2
          simpa using this
        · exact hs.loc_fk
        · exact hs.vids
        · intro i e2 he2
          rcases getElem?_set_cases he2 with ⟨rfl, hlt, rfl⟩ | ⟨hne, hold⟩
          · have := hs.uids _ e hget
            simpa [applyUserData, User.index] using this
          · exact hs.uids _ e2 hold
        · exact hs.lids
        · intro ui e2 he2 vi
          rcases getElem?_set_cases he2 with ⟨rfl, hlt, rfl⟩ | ⟨hne, hold⟩
          · exact hs.ubucket _ e hget vi
          · exact hs.ubucket _ e2 hold vi
        · intro ui e2 he2 p hp
          rcases getElem?_set_cases he2 with ⟨rfl, hlt, rfl⟩ | ⟨hne, hold⟩
          · exact hs.usnd _ e hget p hp
          · exact hs.usnd _ e2 hold p hp
        · intro ui e2 he2
          rcases getElem?_set_cases he2 with ⟨rfl, hlt, rfl⟩ | ⟨hne, hold⟩
          · exact hs.usorted _ e hget
          · exact hs.usorted _ e2 hold
        · intro li e2 he2 vi
          exact hs.lbucket li e2 he2 vi
        · intro li e2 he2 p hp
          have := hs.lsnd li e2 he2 p hp
          simpa using this

/-- `add_location` preserves the invariant. -/
theorem Inv_add_location {s : Store} {l : Location} {r : Except StoreError Empty} {s₂ : Store}
    (hs : Inv s) (h : s.add_location l = (r, s₂)) : Inv s₂ := by
  unfold Store.add_location at h
  dsimp only at h
  by_cases h1 : s.locations.length > l.index
  · rw [if_pos h1] at h
    cases h
    exact hs
  · rw [if_neg h1] at h
    by_cases h2 : s.locations.length ≠ l.index
    · rw [if_pos h2] at h
      cases h
      exact hs
    · rw [if_neg h2] at h
      have hlen : s.locations.length = l.index := not_ne_iff.mp h2
      cases hv : l.valid with
      | error e =>
        rw [hv] at h
        cases h
        exact hs
      | ok w =>
        rw [hv] at h
        cases h
        refine ⟨?_, ?_, ?_, ?_, ?_, ?_, ?_, ?_, ?_, ?_⟩
        · exact hs.user_fk
        · intro v hv2
          have := hs.loc_fk v hv2
          simp only [List.length_append, List.length_cons, List.length_nil]
          omega
        · exact hs.vids
        · exact hs.uids
        · intro i e he
          rcases getElem?_concat_cases he with ⟨hi, hold⟩ | ⟨hi, rfl⟩
          · exact hs.lids i e hold
          · show l.index = i
            omega
        · intro ui e he vi
          exact hs.ubucket ui e he vi
        · intro ui e he p hp
          have := hs.usnd ui e he p hp
          simp only [List.length_append, List.length_cons, List.length_nil]
          omega
        · intro ui e he
          exact hs.usorted ui e he
        · intro li e he vi
          rcases getElem?_concat_cases he with ⟨hi, hold⟩ | ⟨hi, rfl⟩
          · exact hs.lbucket li e hold vi
          · rw [countFst_nil]
            unfold lCond
            cases hvv : s.visits[vi]? with
            | none => rfl
            | some v =>
              have hlt := hs.loc_fk v (mem_of_getElem?_some hvv)
              have hne : v.location_index ≠ li := by omega
              show 0 = if v.location_index = li then 1 else 0
              rw [if_neg hne]
        · intro li e he p hp
          rcases getElem?_concat_cases he with ⟨hi, hold⟩ | ⟨hi, rfl⟩
          · exact hs.lsnd li e hold p hp
          · simp at hp

/-- `update_location` preserves the invariant. -/
theorem Inv_update_location {s : Store} {lid : Nat} {d : LocationData}
    {r : Except StoreError Empty} {s₂ : Store}
    (hs : Inv s) (h : s.update_location lid d = some (r, s₂)) : Inv s₂ := by
  unfold Store.update_location at h
  dsimp only at h
  by_cases h1 : s.locations.length < id_to_index lid
  · rw [if_pos h1] at h
    cases h
    exact hs
  · rw [if_neg h1] at h
    cases hget : s.locations[id_to_index lid]? with
    | none =>
      rw [hget] at h
      simp at h
    | some e =>
      rw [hget] at h
      dsimp only at h
      cases hv : (applyLocationData e.1 d).valid with
      | error err =>
        rw [hv] at h
        cases h
        exact hs
      | ok w =>
        rw [hv] at h
        cases h
        refine ⟨?_, ?_, ?_, ?_, ?_, ?_, ?_, ?_, ?_, ?_⟩
        · exact hs.user_fk
        · intro v hv2
          have := hs.loc_fk v hv2
          simpa using this
        · exact hs.vids
        · exact hs.uids
        · intro i e2 he2
          rcases getElem?_set_cases he2 with ⟨rfl, hlt, rfl⟩ | ⟨hne, hold⟩
          · have := hs.lids _ e hget
            simpa [applyLocationData, Location.index] using this
          · exact hs.lids _ e2 hold
        · intro ui e2 he2 vi
          exact hs.ubucket ui e2 he2 vi
        · intro ui e2 he2 p hp
          have := hs.usnd ui e2 he2 p hp
          simpa using this
        · intro ui e2 he2
          exact hs.usorted ui e2 he2
        · intro li e2 he2 vi
          rcases getElem?_set_cases he2 with ⟨rfl, hlt, rfl⟩ | ⟨hne, hold⟩
          · exact hs.lbucket _ e hget vi
          · exact hs.lbucket _ e2 hold vi
        · intro li e2 he2 p hp
          rcases getElem?_set_cases he2 with ⟨rfl, hlt, rfl⟩ | ⟨hne, hold⟩
          · exact hs.lsnd _ e hget p hp
          · exact hs.lsnd _ e2 hold p hp

end Hlcup

namespace Hlcup

/-! Transfer lemmas for `uCond`/`lCond`/`visitAt` across a visit-table push or
in-place replacement. -/

theorem uCond_concat {s₂ s : Store} {v : Visit} (h : s₂.visits = s.visits ++ [v])
    (ui vi : Nat) :
    uCond s₂ ui vi =
      if vi = s.visits.length then (if v.user_index = ui then 1 else 0)
      else uCond s ui vi := by
  unfold uCond
  rw [h]
  rcases Nat.lt_trichotomy vi s.visits.length with hvi | rfl | hvi
  · rw [List.getElem?_append, if_pos hvi, if_neg (by omega)]
  · rw [List.getElem?_concat_length, if_pos rfl]
  · rw [List.getElem?_eq_none (by simp; omega), if_neg (by omega),
      List.getElem?_eq_none (by omega)]

theorem lCond_concat {s₂ s : Store} {v : Visit} (h : s₂.visits = s.visits ++ [v])
    (li vi : Nat) :
    lCond s₂ li vi =
      if vi = s.visits.length then (if v.location_index = li then 1 else 0)
      else lCond s li vi := by
  unfold lCond
  rw [h]
  rcases Nat.lt_trichotomy vi s.visits.length with hvi | rfl | hvi
  · rw [List.getElem?_append, if_pos hvi, if_neg (by omega)]
  · rw [List.getElem?_concat_length, if_pos rfl]
  · rw [List.getElem?_eq_none (by simp; omega), if_neg (by omega),
      List.getElem?_eq_none (by omega)]

theorem uCond_set {s₂ s : Store} {v : Visit} {i : Nat}
    (h : s₂.visits = s.visits.set i v) (hi : i < s.visits.length) (ui vi : Nat) :
    uCond s₂ ui vi =
      if vi = i then (if v.user_index = ui then 1 else 0) else uCond s ui vi := by
  unfold uCond
  rw [h, List.getElem?_set]
  by_cases hvi : vi = i
  · subst hvi
    rw [if_pos rfl, if_pos hi, if_pos rfl]
  · rw [if_neg hvi, if_neg (by omega : ¬ i = vi)]

theorem lCond_set {s₂ s : Store} {v : Visit} {i : Nat}
    (h : s₂.visits = s.visits.set i v) (hi : i < s.visits.length) (li vi : Nat) :
    lCond s₂ li vi =
      if vi = i then (if v.location_index = li then 1 else 0) else lCond s li vi := by
  unfold lCond
  rw [h, List.getElem?_set]
  by_cases hvi : vi = i
  · subst hvi
    rw [if_pos rfl, if_pos hi, if_pos rfl]
  · rw [if_neg hvi, if_neg (by omega : ¬ i = vi)]

theorem visitAt_concat (visits : List Visit) (v : Visit) (vi : Nat) :
    visitAt (visits ++ [v]) vi =
      if vi = visits.length then v.visited_at else visitAt visits vi := by
  unfold visitAt
  rcases Nat.lt_trichotomy vi visits.length with hvi | rfl | hvi
  · rw [List.getElem?_append, if_pos hvi, if_neg (by omega)]
  · rw [List.getElem?_concat_length, if_pos rfl]
  · rw [List.getElem?_eq_none (by simp; omega), if_neg (by omega),
      List.getElem?_eq_none (by omega)]

theorem visitAt_set {visits : List Visit} {v : Visit} {i : Nat}
    (hi : i < visits.length) (vi : Nat) :
    visitAt (visits.set i v) vi =
      if vi = i then v.visited_at else visitAt visits vi := by
  unfold visitAt
  rw [List.getElem?_set]
  by_cases hvi : vi = i
  · subst hvi
    rw [if_pos rfl, if_pos hi, if_pos rfl]
  · rw [if_neg hvi, if_neg (by omega : ¬ i = vi)]

/-- Successful person foreign-key resolution yields the table entry. -/
theorem get_visit_user_ok {s : Store} {uid : Nat} {user : User}
    (h : s.get_visit_user uid = .ok user) :
    ∃ e, s.users[id_to_index uid]? = some e ∧ e.1 = user ∧
      id_to_index uid < s.users.length := by
  unfold Store.get_visit_user at h
  by_cases hc : s.users.length ≤ id_to_index uid
  · rw [dif_pos hc] at h
    simp at h
  · rw [dif_neg hc] at h
    have hlt := Nat.lt_of_not_le hc
    refine ⟨s.users.get ⟨id_to_index uid, by omega⟩, ?_, ?_, hlt⟩
    · rw [List.getElem?_eq_getElem hlt]
      simp [List.get_eq_getElem]
    · injection h with h2

/-- Successful place foreign-key resolution yields the table entry. -/
theorem get_visit_location_ok {s : Store} {lid : Nat} {location : Location}
    (h : s.get_visit_location lid = .ok location) :
    ∃ e, s.locations[id_to_index lid]? = some e ∧ e.1 = location ∧
      id_to_index lid < s.locations.length := by
  unfold Store.get_visit_location at h
  by_cases hc : s.locations.length ≤ id_to_index lid
  · rw [dif_pos hc] at h
    simp at h
  · rw [dif_neg hc] at h
    have hlt := Nat.lt_of_not_le hc
    refine ⟨s.locations.get ⟨id_to_index lid, by omega⟩, ?_, ?_, hlt⟩
    · rw [List.getElem?_eq_getElem hlt]
      simp [List.get_eq_getElem]
    · injection h with h2

end Hlcup

namespace Hlcup

theorem uCond_len_le {s : Store} {vi : Nat} (h : s.visits.length ≤ vi) (ui : Nat) :
    uCond s ui vi = 0 := by
  unfold uCond
  rw [List.getElem?_eq_none h]

theorem lCond_len_le {s : Store} {vi : Nat} (h : s.visits.length ≤ vi) (li : Nat) :
    lCond s li vi = 0 := by
  unfold lCond
  rw [List.getElem?_eq_none h]

/-- `add_visit_to_user`, component form. -/
theorem add_visit_to_user_fields (s : Store) (visit : Visit) (location : Location)
    {e : User × List (Nat × Nat)} (he : s.users[visit.user_index]? = some e)
    (hb : ∀ p ∈ e.2, p.1 < s.visits.length) :
    ∃ s₁, s.add_visit_to_user visit location = some s₁ ∧
      s₁.now = s.now ∧ s₁.locations = s.locations ∧ s₁.visits = s.visits ∧
      s₁.users = s.users.set visit.user_index
        (e.1, bucketInsert (fun p => decide (visit.visited_at < visitAt s.visits p.1))
          (visit.index, location.index) e.2) := by
  rw [add_visit_to_user_eq s visit location he hb]
  exact ⟨_, rfl, rfl, rfl, rfl, rfl⟩

/-- `remove_visit_from_user`, component form. -/
theorem remove_visit_from_user_fields (s : Store) (visit : Visit)
    {e : User × List (Nat × Nat)} (he : s.users[visit.user_index]? = some e) :
    ∃ s₁, s.remove_visit_from_user visit = some s₁ ∧
      s₁.now = s.now ∧ s₁.locations = s.locations ∧ s₁.visits = s.visits ∧
      s₁.users = s.users.set visit.user_index (e.1, bucketRemove visit.index e.2) := by
  rw [remove_visit_from_user_eq s visit he]
  exact ⟨_, rfl, rfl, rfl, rfl, rfl⟩

/-- `add_visit_to_location`, component form. -/
theorem add_visit_to_location_fields (s : Store) (visit : Visit) (user : User)
    {e : Location × List (Nat × Nat)} (he : s.locations[visit.location_index]? = some e) :
    ∃ s₁, s.add_visit_to_location visit user = some s₁ ∧
      s₁.now = s.now ∧ s₁.users = s.users ∧ s₁.visits = s.visits ∧
      s₁.locations = s.locations.set visit.location_index
        (e.1, e.2 ++ [(visit.index, user.index)]) := by
  rw [add_visit_to_location_eq s visit user he]
  exact ⟨_, rfl, rfl, rfl, rfl, rfl⟩

/-- `remove_visit_from_location`, component form. -/
theorem remove_visit_from_location_fields (s : Store) (visit : Visit)
    {e : Location × List (Nat × Nat)} (he : s.locations[visit.location_index]? = some e) :
    ∃ s₁, s.remove_visit_from_location visit = some s₁ ∧
      s₁.now = s.now ∧ s₁.users = s.users ∧ s₁.visits = s.visits ∧
      s₁.locations = s.locations.set visit.location_index
        (e.1, bucketRemove visit.index e.2) := by
  rw [remove_visit_from_location_eq s visit he]
  exact ⟨_, rfl, rfl, rfl, rfl, rfl⟩

/-- Invariant of the committed state of a successful `add_visit`, stated on
the components of the post-state. -/
theorem Inv_add_visit_core {s : Store} (hs : Inv s) {visit : Visit}
    {eU : User × List (Nat × Nat)} {eL : Location × List (Nat × Nat)}
    (heU : s.users[visit.user_index]? = some eU)
    (heL : s.locations[visit.location_index]? = some eL)
    (hlen : s.visits.length = visit.index)
    {s₂ : Store}
    (hU : s₂.users = s.users.set visit.user_index
      (eU.1, bucketInsert (fun p => decide (visit.visited_at < visitAt s.visits p.1))
        (visit.index, eL.1.index) eU.2))
    (hL : s₂.locations = s.locations.set visit.location_index
      (eL.1, eL.2 ++ [(visit.index, eU.1.index)]))
    (hV : s₂.visits = s.visits ++ [visit]) : Inv s₂ := by
  rcases List.getElem?_eq_some.mp heU with ⟨hub, -⟩
  rcases List.getElem?_eq_some.mp heL with ⟨hlb, -⟩
  have heUidx : eU.1.index = visit.user_index := hs.uids _ eU heU
  have heLidx : eL.1.index = visit.location_index := hs.lids _ eL heL
  refine ⟨?_, ?_, ?_, ?_, ?_, ?_, ?_, ?_, ?_, ?_⟩
  · intro v hv
    rw [hV] at hv
    rw [hU, List.length_set]
    rcases List.mem_append.mp hv with hv | hv
    · exact hs.user_fk v hv
    · simp only [List.mem_singleton] at hv
      subst hv
      exact hub
  · intro v hv
    rw [hV] at hv
    rw [hL, List.length_set]
    rcases List.mem_append.mp hv with hv | hv
    · exact hs.loc_fk v hv
    · simp only [List.mem_singleton] at hv
      subst hv
      exact hlb
  · intro i v hv
    rw [hV] at hv
    rcases getElem?_concat_cases hv with ⟨hi, hold⟩ | ⟨hi, rfl⟩
    · exact hs.vids i v hold
    · omega
  · intro i e he
    rw [hU] at he
    rcases getElem?_set_cases he with ⟨hidx, hlt, rfl⟩ | ⟨hne, hold⟩
    · rw [← hidx]
      exact heUidx
    · exact hs.uids i e hold
  · intro i e he
    rw [hL] at he
    rcases getElem?_set_cases he with ⟨hidx, hlt, rfl⟩ | ⟨hne, hold⟩
    · rw [← hidx]
      exact heLidx
    · exact hs.lids i e hold
  · intro ui e he vi
    rw [hU] at he
    rw [uCond_concat hV ui vi]
    rcases getElem?_set_cases he with ⟨hidx, hlt, rfl⟩ | ⟨hne, hold⟩
    · rw [countFst_bucketInsert]
      dsimp only
      subst hidx
      have hold2 := hs.ubucket _ eU heU vi
      by_cases hvi : vi = s.visits.length
      · subst hvi
        rw [if_pos rfl, if_pos rfl,
          if_pos (by omega : visit.index = s.visits.length), hold2,
          uCond_len_le (le_refl _)]
      · rw [if_neg hvi, if_neg (by omega : ¬ visit.index = vi), hold2]
        omega
    · have hold2 := hs.ubucket ui e hold vi
      by_cases hvi : vi = s.visits.length
      · subst hvi
        rw [if_pos rfl, if_neg (by omega : ¬ visit.user_index = ui), hold2,
          uCond_len_le (le_refl _)]
      · rw [if_neg hvi]
        exact hold2
  · intro ui e he p hp
    rw [hU] at he
    rw [hL, List.length_set]
    rcases getElem?_set_cases he with ⟨hidx, hlt, rfl⟩ | ⟨hne, hold⟩
    · rcases mem_bucketInsert.mp hp with rfl | hp
      · show eL.1.index < s.locations.length
        omega
      · exact hs.usnd _ eU heU p hp
    · exact hs.usnd ui e hold p hp
  · intro ui e he
    rw [hU] at he
    rw [hV]
    rcases getElem?_set_cases he with ⟨hidx, hlt, rfl⟩ | ⟨hne, hold⟩
    · refine pairwise_bucketInsert (fun p => visitAt (s.visits ++ [visit]) p.1)
        (visit.index, eL.1.index) _ ?_ ?_
      · intro y hy
        have hylt : y.1 < s.visits.length := hs.ubucket_fst_lt heU hy
        have h1 : visitAt (s.visits ++ [visit]) visit.index = visit.visited_at := by
          rw [visitAt_concat, if_pos hlen.symm]
        have h2 : visitAt (s.visits ++ [visit]) y.1 = visitAt s.visits y.1 := by
          rw [visitAt_concat, if_neg (by omega)]
        show decide (visit.visited_at < visitAt s.visits y.1)
          = decide (visitAt (s.visits ++ [visit]) visit.index
            < visitAt (s.visits ++ [visit]) y.1)
        rw [h1, h2]
      · refine pairwise_key_congr ?_ (hs.usorted _ eU heU)
        intro y hy
        have hylt : y.1 < s.visits.length := hs.ubucket_fst_lt heU hy
        rw [visitAt_concat, if_neg (by omega)]
    · refine pairwise_key_congr ?_ (hs.usorted ui e hold)
      intro y hy
      have hylt : y.1 < s.visits.length := hs.ubucket_fst_lt hold hy
      rw [visitAt_concat, if_neg (by omega)]
  · intro li e he vi
    rw [hL] at he
    rw [lCond_concat hV li vi]
    rcases getElem?_set_cases he with ⟨hidx, hlt, rfl⟩ | ⟨hne, hold⟩
    · rw [countFst_append, countFst_cons, countFst_nil]
      dsimp only
      subst hidx
      have hold2 := hs.lbucket _ eL heL vi
      by_cases hvi : vi = s.visits.length
      · subst hvi
        rw [if_pos rfl, if_pos rfl,
          if_pos (by omega : visit.index = s.visits.length), hold2,
          lCond_len_le (le_refl _)]
      · rw [if_neg hvi, if_neg (by omega : ¬ visit.index = vi), hold2]
        omega
    · have hold2 := hs.lbucket li e hold vi
      by_cases hvi : vi = s.visits.length
      · subst hvi
        rw [if_pos rfl, if_neg (by omega : ¬ visit.location_index = li), hold2,
          lCond_len_le (le_refl _)]
      · rw [if_neg hvi]
        exact hold2
  · intro li e he p hp
    rw [hL] at he
    rw [hU, List.length_set]
    rcases getElem?_set_cases he with ⟨hidx, hlt, rfl⟩ | ⟨hne, hold⟩
    · rcases List.mem_append.mp hp with hp | hp
      · exact hs.lsnd _ eL heL p hp
      · simp only [List.mem_singleton] at hp
        subst hp
        show eU.1.index < s.users.length
        omega
    · exact hs.lsnd li e hold p hp

/-- `add_visit` preserves the invariant. -/
theorem Inv_add_visit {s : Store} {visit : Visit} {r : Except StoreError Empty} {s₂ : Store}
    (hs : Inv s) (h : s.add_visit visit = some (r, s₂)) : Inv s₂ := by
  unfold Store.add_visit at h
  dsimp only at h
  by_cases h1 : s.visits.length > visit.index
  · rw [if_pos h1] at h
    cases h
    exact hs
  · rw [if_neg h1] at h
    by_cases h2 : s.visits.length ≠ visit.index
    · rw [if_pos h2] at h
      cases h
      exact hs
    · rw [if_neg h2] at h
      have hlen : s.visits.length = visit.index := not_ne_iff.mp h2
      cases hv : visit.valid with
      | error e =>
        rw [hv] at h
        cases h
        exact hs
      | ok w =>
        rw [hv] at h
        cases hgu : s.get_visit_user visit.user with
        | error e =>
          rw [hgu] at h
          cases h
          exact hs
        | ok user =>
          rw [hgu] at h
          dsimp only at h
          cases hgl : s.get_visit_location visit.location with
          | error e =>
            rw [hgl] at h
            cases h
            exact hs
          | ok location =>
            rw [hgl] at h
            dsimp only at h
            rcases get_visit_user_ok hgu with ⟨eU, heU, heU1, hub⟩
            rcases get_visit_location_ok hgl with ⟨eL, heL, heL1, hlb⟩
            have hbnd : ∀ p ∈ eU.2, p.1 < s.visits.length :=
              fun p hp => hs.ubucket_fst_lt heU hp
            rcases add_visit_to_user_fields s visit location heU hbnd
              with ⟨s1, hu1, h1now, h1loc, h1vis, h1users⟩
            rw [hu1] at h
            dsimp only at h
            have heL1s : s1.locations[visit.location_index]? = some eL := by
              rw [h1loc]
              exact heL
            rcases add_visit_to_location_fields s1 visit user heL1s
              with ⟨s2, hu2, h2now, h2users, h2vis, h2locs⟩
            rw [hu2] at h
            dsimp only at h
            cases h
            refine Inv_add_visit_core hs heU heL hlen ?_ ?_ ?_
            · show s2.users = _
              rw [h2users, h1users, heL1]
            · show s2.locations = _
              rw [h2locs, h1loc, heU1]
            · show s2.visits ++ [visit] = _
              rw [h2vis, h1vis]

end Hlcup

namespace Hlcup

/-- User-side invariant pieces after the user-bucket remove/re-insert phase of
`update_visit`: the visit at `idx` has been replaced by `updated`, the entry
for `idx` was removed from the old person's bucket and re-inserted, sorted, in
the (possibly same) new person's bucket. -/
theorem Inv_user_side_update {s : Store} (hs : Inv s) {idx : Nat}
    {original updated : Visit}
    (horig : s.visits[idx]? = some original)
    (huplt : updated.user_index < s.users.length)
    {K : Nat} (hK : K < s.locations.length)
    {eO : User × List (Nat × Nat)} (heO : s.users[original.user_index]? = some eO)
    {eN : User × List (Nat × Nat)}
    (heN : (s.users.set original.user_index
      (eO.1, bucketRemove idx eO.2))[updated.user_index]? = some eN)
    {σ : Store}
    (hσU : σ.users = (s.users.set original.user_index
      (eO.1, bucketRemove idx eO.2)).set updated.user_index
        (eN.1, bucketInsert
          (fun p => decide (updated.visited_at < visitAt (s.visits.set idx updated) p.1))
          (idx, K) eN.2))
    (hσV : σ.visits = s.visits.set idx updated)
    (hσL : σ.locations.length = s.locations.length) :
    (∀ v ∈ σ.visits, v.user_index < σ.users.length) ∧
    (∀ (i : Nat) (e : User × List (Nat × Nat)), σ.users[i]? = some e → e.1.index = i) ∧
    (∀ (ui : Nat) (e : User × List (Nat × Nat)), σ.users[ui]? = some e →
      ∀ vi : Nat, countFst vi e.2 = uCond σ ui vi) ∧
    (∀ (ui : Nat) (e : User × List (Nat × Nat)), σ.users[ui]? = some e →
      ∀ p ∈ e.2, p.2 < σ.locations.length) ∧
    (∀ (ui : Nat) (e : User × List (Nat × Nat)), σ.users[ui]? = some e →
      e.2.Pairwise fun a b => visitAt σ.visits a.1 ≤ visitAt σ.visits b.1) := by
  rcases List.getElem?_eq_some.mp horig with ⟨hidx, -⟩
  have horigm : original ∈ s.visits := mem_of_getElem?_some horig
  have horiglt : original.user_index < s.users.length := hs.user_fk original horigm
  have hcnt1 : countFst idx eO.2 = 1 := by
    rw [hs.ubucket _ eO heO idx]
    unfold uCond
    rw [horig]
    show (if original.user_index = original.user_index then 1 else 0) = 1
    rw [if_pos rfl]
  have hcnt0 : ∀ ui, original.user_index ≠ ui →
      ∀ e, s.users[ui]? = some e → countFst idx e.2 = 0 := by
    intro ui hne e he
    rw [hs.ubucket _ e he idx]
    unfold uCond
    rw [horig]
    show (if original.user_index = ui then 1 else 0) = 0
    rw [if_neg (by omega)]
  have hxval : visitAt (s.visits.set idx updated) idx = updated.visited_at := by
    rw [visitAt_set hidx, if_pos rfl]
  have hyval : ∀ y : Nat, y ≠ idx →
      visitAt (s.visits.set idx updated) y = visitAt s.visits y := by
    intro y hy
    rw [visitAt_set hidx, if_neg hy]
  refine ⟨?_, ?_, ?_, ?_, ?_⟩
  · intro v hv
    rw [hσV] at hv
    rw [hσU, List.length_set, List.length_set]
    rcases List.mem_or_eq_of_mem_set hv with hv | rfl
    · exact hs.user_fk v hv
    · exact huplt
  · intro i e he
    rw [hσU] at he
    rcases getElem?_set_cases he with ⟨h1, h2, rfl⟩ | ⟨h1, he2⟩
    · rcases getElem?_set_cases heN with ⟨g1, g2, rfl⟩ | ⟨g1, heN2⟩
      · rw [← h1, ← g1]
        exact hs.uids _ eO heO
      · rw [← h1]
        exact hs.uids _ eN heN2
    · rcases getElem?_set_cases he2 with ⟨g1, g2, rfl⟩ | ⟨g1, he3⟩
      · rw [← g1]
        exact hs.uids _ eO heO
      · exact hs.uids i e he3
  · intro ui e he vi
    rw [hσU] at he
    rw [uCond_set hσV hidx ui vi]
    rcases getElem?_set_cases he with ⟨h1, h2, rfl⟩ | ⟨h1, he2⟩
    · rw [countFst_bucketInsert]
      dsimp only
      rcases getElem?_set_cases heN with ⟨g1, g2, rfl⟩ | ⟨g1, heN2⟩
      · by_cases hvi : vi = idx
        · subst hvi
          rw [if_pos rfl, countFst_bucketRemove_self, hcnt1, if_pos rfl,
            if_pos (by omega : updated.user_index = ui)]
        · rw [if_neg (by omega : ¬ idx = vi), if_neg hvi,
            countFst_bucketRemove_ne (by omega), hs.ubucket _ eO heO vi, g1, h1]
          omega
      · have hold := hs.ubucket _ eN heN2 vi
        by_cases hvi : vi = idx
        · subst hvi
          rw [if_pos rfl, if_pos rfl, hcnt0 _ g1 eN heN2, if_pos h1]
        · rw [if_neg (by omega : ¬ idx = vi), if_neg hvi, hold, h1]
          omega
    · rcases getElem?_set_cases he2 with ⟨g1, g2, rfl⟩ | ⟨g1, he3⟩
      · by_cases hvi : vi = idx
        · subst hvi
          rw [countFst_bucketRemove_self, hcnt1, if_pos rfl, if_neg h1]
        · rw [countFst_bucketRemove_ne (by omega), hs.ubucket _ eO heO vi,
            if_neg hvi, g1]
      · by_cases hvi : vi = idx
        · rw [hs.ubucket ui e he3 vi, if_pos hvi, if_neg h1]
          unfold uCond
          rw [hvi, horig]
          show (if original.user_index = ui then 1 else 0) = 0
          rw [if_neg g1]
        · rw [if_neg hvi]
          exact hs.ubucket ui e he3 vi
  · intro ui e he p hp
    rw [hσL]
    rw [hσU] at he
    rcases getElem?_set_cases he with ⟨h1, h2, rfl⟩ | ⟨h1, he2⟩
    · rcases mem_bucketInsert.mp hp with rfl | hp
      · exact hK
      · rcases getElem?_set_cases heN with ⟨g1, g2, rfl⟩ | ⟨g1, heN2⟩
        · exact hs.usnd _ eO heO p (mem_of_mem_bucketRemove hp)
        · exact hs.usnd _ eN heN2 p hp
    · rcases getElem?_set_cases he2 with ⟨g1, g2, rfl⟩ | ⟨g1, he3⟩
      · exact hs.usnd _ eO heO p (mem_of_mem_bucketRemove hp)
      · exact hs.usnd ui e he3 p hp
  · intro ui e he
    rw [hσU] at he
    rw [hσV]
    rcases getElem?_set_cases he with ⟨h1, h2, rfl⟩ | ⟨h1, he2⟩
    · refine pairwise_bucketInsert (fun p => visitAt (s.visits.set idx updated) p.1)
        (idx, K) _ ?_ ?_
      · intro y hy
        show decide (updated.visited_at < visitAt (s.visits.set idx updated) y.1)
          = decide (visitAt (s.visits.set idx updated) idx
            < visitAt (s.visits.set idx updated) y.1)
        rw [hxval]
      · rcases getElem?_set_cases heN with ⟨g1, g2, rfl⟩ | ⟨g1, heN2⟩
        · have hne : ∀ p ∈ bucketRemove idx eO.2, p.1 ≠ idx := by
            apply fst_ne_of_countFst_zero
            rw [countFst_bucketRemove_self, hcnt1]
          refine pairwise_key_congr ?_
            (pairwise_bucketRemove (hs.usorted _ eO heO))
          intro y hy
          exact (hyval y.1 (hne y hy)).symm
        · have hne : ∀ p ∈ eN.2, p.1 ≠ idx :=
            fst_ne_of_countFst_zero (hcnt0 _ g1 eN heN2)
          refine pairwise_key_congr ?_ (hs.usorted _ eN heN2)
          intro y hy
          exact (hyval y.1 (hne y hy)).symm
    · rcases getElem?_set_cases he2 with ⟨g1, g2, rfl⟩ | ⟨g1, he3⟩
      · have hne : ∀ p ∈ bucketRemove idx eO.2, p.1 ≠ idx := by
          apply fst_ne_of_countFst_zero
          rw [countFst_bucketRemove_self, hcnt1]
        refine pairwise_key_congr ?_
          (pairwise_bucketRemove (hs.usorted _ eO heO))
        intro y hy
        exact (hyval y.1 (hne y hy)).symm
      · have hne : ∀ p ∈ e.2, p.1 ≠ idx := by
          apply fst_ne_of_countFst_zero
          exact hcnt0 _ g1 e he3
        refine pairwise_key_congr ?_ (hs.usorted ui e he3)
        intro y hy
        exact (hyval y.1 (hne y hy)).symm

end Hlcup

namespace Hlcup

/-- Location-side invariant pieces after the place-bucket remove/append phase
of `update_visit`. -/
theorem Inv_loc_side_update {s : Store} (hs : Inv s) {idx : Nat}
    {original updated : Visit}
    (horig : s.visits[idx]? = some original)
    (huplt : updated.location_index < s.locations.length)
    {K : Nat} (hK : K < s.users.length)
    {eO : Location × List (Nat × Nat)} (heO : s.locations[original.location_index]? = some eO)
    {eN : Location × List (Nat × Nat)}
    (heN : (s.locations.set original.location_index
      (eO.1, bucketRemove idx eO.2))[updated.location_index]? = some eN)
    {σ : Store}
    (hσL : σ.locations = (s.locations.set original.location_index
      (eO.1, bucketRemove idx eO.2)).set updated.location_index
        (eN.1, eN.2 ++ [(idx, K)]))
    (hσV : σ.visits = s.visits.set idx updated)
    (hσU : σ.users.length = s.users.length) :
    (∀ v ∈ σ.visits, v.location_index < σ.locations.length) ∧
    (∀ (i : Nat) (e : Location × List (Nat × Nat)), σ.locations[i]? = some e → e.1.index = i) ∧
    (∀ (li : Nat) (e : Location × List (Nat × Nat)), σ.locations[li]? = some e →
      ∀ vi : Nat, countFst vi e.2 = lCond σ li vi) ∧
    (∀ (li : Nat) (e : Location × List (Nat × Nat)), σ.locations[li]? = some e →
      ∀ p ∈ e.2, p.2 < σ.users.length) := by
  rcases List.getElem?_eq_some.mp horig with ⟨hidx, -⟩
  have horigm : original ∈ s.visits := mem_of_getElem?_some horig
  have horiglt : original.location_index < s.locations.length := hs.loc_fk original horigm
  have hcnt1 : countFst idx eO.2 = 1 := by
    rw [hs.lbucket _ eO heO idx]
    unfold lCond
    rw [horig]
    show (if original.location_index = original.location_index then 1 else 0) = 1
    rw [if_pos rfl]
  have hcnt0 : ∀ li, original.location_index ≠ li →
      ∀ e, s.locations[li]? = some e → countFst idx e.2 = 0 := by
    intro li hne e he
    rw [hs.lbucket _ e he idx]
    unfold lCond
    rw [horig]
    show (if original.location_index = li then 1 else 0) = 0
    rw [if_neg (by omega)]
  refine ⟨?_, ?_, ?_, ?_⟩
  · intro v hv
    rw [hσV] at hv
    rw [hσL, List.length_set, List.length_set]
    rcases List.mem_or_eq_of_mem_set hv with hv | rfl
    · exact hs.loc_fk v hv
    · exact huplt
  · intro i e he
    rw [hσL] at he
    rcases getElem?_set_cases he with ⟨h1, h2, rfl⟩ | ⟨h1, he2⟩
    · rcases getElem?_set_cases heN with ⟨g1, g2, rfl⟩ | ⟨g1, heN2⟩
      · rw [← h1, ← g1]
        exact hs.lids _ eO heO
      · rw [← h1]
        exact hs.lids _ eN heN2
    · rcases getElem?_set_cases he2 with ⟨g1, g2, rfl⟩ | ⟨g1, he3⟩
      · rw [← g1]
        exact hs.lids _ eO heO
      · exact hs.lids i e he3
  · intro li e he vi
    rw [hσL] at he
    rw [lCond_set hσV hidx li vi]
    rcases getElem?_set_cases he with ⟨h1, h2, rfl⟩ | ⟨h1, he2⟩
    · rw [countFst_append, countFst_cons, countFst_nil]
      dsimp only
      rcases getElem?_set_cases heN with ⟨g1, g2, rfl⟩ | ⟨g1, heN2⟩
      · by_cases hvi : vi = idx
        · rw [hvi, countFst_bucketRemove_self, hcnt1, if_pos rfl,
            if_pos h1, if_pos rfl]
        · rw [if_neg hvi, if_neg (by omega : ¬ idx = vi),
            countFst_bucketRemove_ne (by omega), hs.lbucket _ eO heO vi, g1, h1]
          omega
      · have hold := hs.lbucket _ eN heN2 vi
        by_cases hvi : vi = idx
        · rw [hvi, hcnt0 _ g1 eN heN2, if_pos rfl, if_pos h1, if_pos rfl]
        · rw [if_neg hvi, if_neg (by omega : ¬ idx = vi), hold, h1]
          omega
    · rcases getElem?_set_cases he2 with ⟨g1, g2, rfl⟩ | ⟨g1, he3⟩
      · by_cases hvi : vi = idx
        · rw [hvi, countFst_bucketRemove_self, hcnt1, if_pos rfl, if_neg h1]
        · rw [countFst_bucketRemove_ne (by omega), hs.lbucket _ eO heO vi,
            if_neg hvi, g1]
      · by_cases hvi : vi = idx
        · rw [hs.lbucket li e he3 vi, if_pos hvi, if_neg h1]
          unfold lCond
          rw [hvi, horig]
          show (if original.location_index = li then 1 else 0) = 0
          rw [if_neg g1]
        · rw [if_neg hvi]
          exact hs.lbucket li e he3 vi
  · intro li e he p hp
    rw [hσU]
    rw [hσL] at he
    rcases getElem?_set_cases he with ⟨h1, h2, rfl⟩ | ⟨h1, he2⟩
    · rcases List.mem_append.mp hp with hp | hp
      · rcases getElem?_set_cases heN with ⟨g1, g2, rfl⟩ | ⟨g1, heN2⟩
        · exact hs.lsnd _ eO heO p (mem_of_mem_bucketRemove hp)
        · exact hs.lsnd _ eN heN2 p hp
      · simp only [List.mem_singleton] at hp
        subst hp
        exact hK
    · rcases getElem?_set_cases he2 with ⟨g1, g2, rfl⟩ | ⟨g1, he3⟩
      · exact hs.lsnd _ eO heO p (mem_of_mem_bucketRemove hp)
      · exact hs.lsnd li e he3 p hp

/-- User-side invariant pieces when `update_visit` leaves the person buckets
alone (person and visited-at unchanged by the patch). -/
theorem Inv_user_side_id {s : Store} (hs : Inv s) {idx : Nat}
    {original updated : Visit}
    (horig : s.visits[idx]? = some original)
    (hsameu : updated.user_index = original.user_index)
    (hsamet : updated.visited_at = original.visited_at)
    {σ : Store}
    (hσU : σ.users = s.users)
    (hσV : σ.visits = s.visits.set idx updated)
    (hσL : σ.locations.length = s.locations.length) :
    (∀ v ∈ σ.visits, v.user_index < σ.users.length) ∧
    (∀ (i : Nat) (e : User × List (Nat × Nat)), σ.users[i]? = some e → e.1.index = i) ∧
    (∀ (ui : Nat) (e : User × List (Nat × Nat)), σ.users[ui]? = some e →
      ∀ vi : Nat, countFst vi e.2 = uCond σ ui vi) ∧
    (∀ (ui : Nat) (e : User × List (Nat × Nat)), σ.users[ui]? = some e →
      ∀ p ∈ e.2, p.2 < σ.locations.length) ∧
    (∀ (ui : Nat) (e : User × List (Nat × Nat)), σ.users[ui]? = some e →
      e.2.Pairwise fun a b => visitAt σ.visits a.1 ≤ visitAt σ.visits b.1) := by
  rcases List.getElem?_eq_some.mp horig with ⟨hidx, -⟩
  have horigm : original ∈ s.visits := mem_of_getElem?_some horig
  have hvAt : ∀ y : Nat, visitAt (s.visits.set idx updated) y = visitAt s.visits y := by
    intro y
    rw [visitAt_set hidx]
    by_cases hy : y = idx
    · rw [if_pos hy, hsamet, hy]
      unfold visitAt
      rw [horig]
    · rw [if_neg hy]
  refine ⟨?_, ?_, ?_, ?_, ?_⟩
  · intro v hv
    rw [hσV] at hv
    rw [hσU]
    rcases List.mem_or_eq_of_mem_set hv with hv | rfl
    · exact hs.user_fk v hv
    · rw [hsameu]
      exact hs.user_fk original horigm
  · intro i e he
    rw [hσU] at he
    exact hs.uids i e he
  · intro ui e he vi
    rw [hσU] at he
    rw [uCond_set hσV hidx ui vi]
    by_cases hvi : vi = idx
    · rw [if_pos hvi, hs.ubucket ui e he vi, hvi]
      unfold uCond
      rw [horig, hsameu]
    · rw [if_neg hvi]
      exact hs.ubucket ui e he vi
  · intro ui e he p hp
    rw [hσU] at he
    rw [hσL]
    exact hs.usnd ui e he p hp
  · intro ui e he
    rw [hσU] at he
    rw [hσV]
    refine pairwise_key_congr ?_ (hs.usorted ui e he)
    intro y hy
    exact (hvAt y.1).symm

/-- Location-side invariant pieces when `update_visit` leaves the place
buckets alone (person and place unchanged by the patch). -/
theorem Inv_loc_side_id {s : Store} (hs : Inv s) {idx : Nat}
    {original updated : Visit}
    (horig : s.visits[idx]? = some original)
    (hsamel : updated.location_index = original.location_index)
    {σ : Store}
    (hσL : σ.locations = s.locations)
    (hσV : σ.visits = s.visits.set idx updated)
    (hσU : σ.users.length = s.users.length) :
    (∀ v ∈ σ.visits, v.location_index < σ.locations.length) ∧
    (∀ (i : Nat) (e : Location × List (Nat × Nat)), σ.locations[i]? = some e → e.1.index = i) ∧
    (∀ (li : Nat) (e : Location × List (Nat × Nat)), σ.locations[li]? = some e →
      ∀ vi : Nat, countFst vi e.2 = lCond σ li vi) ∧
    (∀ (li : Nat) (e : Location × List (Nat × Nat)), σ.locations[li]? = some e →
      ∀ p ∈ e.2, p.2 < σ.users.length) := by
  rcases List.getElem?_eq_some.mp horig with ⟨hidx, -⟩
  have horigm : original ∈ s.visits := mem_of_getElem?_some horig
  refine ⟨?_, ?_, ?_, ?_⟩
  · intro v hv
    rw [hσV] at hv
    rw [hσL]
    rcases List.mem_or_eq_of_mem_set hv with hv | rfl
    · exact hs.loc_fk v hv
    · rw [hsamel]
      exact hs.loc_fk original horigm
  · intro i e he
    rw [hσL] at he
    exact hs.lids i e he
  · intro li e he vi
    rw [hσL] at he
    rw [lCond_set hσV hidx li vi]
    by_cases hvi : vi = idx
    · rw [if_pos hvi, hs.lbucket li e he vi, hvi]
      unfold lCond
      rw [horig, hsamel]
    · rw [if_neg hvi]
      exact hs.lbucket li e he vi
  · intro li e he p hp
    rw [hσL] at he
    rw [hσU]
    exact hs.lsnd li e he p hp

/-- The dense-id property of the visit table after an in-place replacement
that keeps the id. -/
theorem vids_update {s : Store} (hs : Inv s) {idx : Nat} {updated : Visit}
    (hupdidx : updated.index = idx) {σ : Store}
    (hσV : σ.visits = s.visits.set idx updated) :
    ∀ (i : Nat) (v : Visit), σ.visits[i]? = some v → v.index = i := by
  intro i v hv
  rw [hσV] at hv
  rcases getElem?_set_cases hv with ⟨h1, h2, rfl⟩ | ⟨h1, hold⟩
  · rw [hupdidx, h1]
  · exact hs.vids i v hold

end Hlcup

namespace Hlcup

/-- `update_visit` preserves the invariant. -/
theorem Inv_update_visit {s : Store} {vid : Nat} {d : VisitData}
    {r : Except StoreError Empty} {s₂ : Store}
    (hs : Inv s) (h : s.update_visit vid d = some (r, s₂)) : Inv s₂ := by
  unfold Store.update_visit at h
  by_cases hc : s.visits.length ≤ id_to_index vid
  · rw [dif_pos hc] at h
    cases h
    exact hs
  · rw [dif_neg hc] at h
    dsimp only at h
    have hlt : id_to_index vid < s.visits.length := Nat.lt_of_not_le hc
    generalize horg : s.visits.get ⟨id_to_index vid, hlt⟩ = original at h
    generalize hupd : applyVisitData original d = updated at h
    have horig : s.visits[id_to_index vid]? = some original := by
      rw [List.getElem?_eq_getElem hlt, ← horg]
      simp [List.get_eq_getElem]
    have hor_idx : original.index = id_to_index vid := hs.vids _ _ horig
    have hupd_idx : updated.index = id_to_index vid := by
      rw [← hupd]
      exact hor_idx
    cases hv : updated.valid with
    | error e =>
      rw [hv] at h
      cases h
      exact hs
    | ok w =>
      rw [hv] at h
      cases hgl : s.get_visit_location updated.location with
      | error e =>
        rw [hgl] at h
        cases h
        exact hs
      | ok location =>
        rw [hgl] at h
        dsimp only at h
        cases hgu : s.get_visit_user updated.user with
        | error e =>
          rw [hgu] at h
          cases h
          exact hs
        | ok user =>
          rw [hgu] at h
          dsimp only at h
          rcases get_visit_user_ok hgu with ⟨eU0, heU0, heU1, hub⟩
          rcases get_visit_location_ok hgl with ⟨eL0, heL0, heL1, hlb⟩
          have hUidx : user.index = updated.user_index := by
            rw [← heU1]
            exact hs.uids _ eU0 heU0
          have hLidx : location.index = updated.location_index := by
            rw [← heL1]
            exact hs.lids _ eL0 heL0
          have hKloc : location.index < s.locations.length := by
            rw [hLidx]
            exact hlb
          have hKuser : user.index < s.users.length := by
            rw [hUidx]
            exact hub
          have horiglt : original.user_index < s.users.length :=
            hs.user_fk original (mem_of_getElem?_some horig)
          have horigloclt : original.location_index < s.locations.length :=
            hs.loc_fk original (mem_of_getElem?_some horig)
          by_cases hflagU : original.user ≠ updated.user ∨
              original.visited_at ≠ updated.visited_at ∨
              original.location ≠ updated.location
          · rw [if_pos hflagU] at h
            obtain ⟨eO, heO⟩ : ∃ e, s.users[original.user_index]? = some e :=
              ⟨_, List.getElem?_eq_getElem horiglt⟩
            have heO1 : ({ s with visits := s.visits.set (id_to_index vid) updated }
                : Store).users[original.user_index]? = some eO := heO
            rcases remove_visit_from_user_fields _ original heO1 with
              ⟨sa, hra, hranow, hraloc, hravis, hrausers⟩
            rw [hra] at h
            dsimp only at h
            have hsaU : sa.users = s.users.set original.user_index
                (eO.1, bucketRemove (id_to_index vid) eO.2) := by
              rw [hrausers, hor_idx]
            have hsaV : sa.visits = s.visits.set (id_to_index vid) updated := hravis
            have hsaLoc : sa.locations = s.locations := hraloc
            have hub' : updated.user_index < sa.users.length := by
              rw [hsaU, List.length_set]
              exact hub
            obtain ⟨eN, heN⟩ : ∃ e, sa.users[updated.user_index]? = some e :=
              ⟨_, List.getElem?_eq_getElem hub'⟩
            have heN' : (s.users.set original.user_index
                (eO.1, bucketRemove (id_to_index vid) eO.2))[updated.user_index]?
                = some eN := by
              rw [← hsaU]
              exact heN
            have hbnd : ∀ p ∈ eN.2, p.1 < sa.visits.length := by
              intro p hp
              rw [hsaV, List.length_set]
              rcases getElem?_set_cases heN' with ⟨g1, g2, rfl⟩ | ⟨g1, hold⟩
              · exact hs.ubucket_fst_lt heO (mem_of_mem_bucketRemove hp)
              · exact hs.ubucket_fst_lt hold hp
            rcases add_visit_to_user_fields sa updated location heN hbnd with
              ⟨s2v, hadd, h2now, h2loc, h2vis, h2users⟩
            rw [hadd] at h
            dsimp only at h
            have hs2U : s2v.users = (s.users.set original.user_index
                (eO.1, bucketRemove (id_to_index vid) eO.2)).set updated.user_index
                (eN.1, bucketInsert
                  (fun p => decide (updated.visited_at <
                    visitAt (s.visits.set (id_to_index vid) updated) p.1))
                  (id_to_index vid, location.index) eN.2) := by
              rw [h2users, hsaU, hsaV, hupd_idx]
            have hs2V : s2v.visits = s.visits.set (id_to_index vid) updated := by
              rw [h2vis, hsaV]
            have hs2Loc : s2v.locations = s.locations := by
              rw [h2loc, hsaLoc]
            by_cases hflagL : original.location ≠ updated.location ∨
                original.user ≠ updated.user
            · rw [if_pos hflagL] at h
              obtain ⟨fO, hfO⟩ : ∃ e, s.locations[original.location_index]? = some e :=
                ⟨_, List.getElem?_eq_getElem horigloclt⟩
              have hfO2 : s2v.locations[original.location_index]? = some fO := by
                rw [hs2Loc]
                exact hfO
              rcases remove_visit_from_location_fields s2v original hfO2 with
                ⟨sb, hrb, hbnow, hbusers, hbvis, hblocs⟩
              rw [hrb] at h
              dsimp only at h
              have hsbL : sb.locations = s.locations.set original.location_index
                  (fO.1, bucketRemove (id_to_index vid) fO.2) := by
                rw [hblocs, hs2Loc, hor_idx]
              have hsbU : sb.users = s2v.users := hbusers
              have hsbV : sb.visits = s.visits.set (id_to_index vid) updated := by
                rw [hbvis, hs2V]
              have hlb' : updated.location_index < sb.locations.length := by
                rw [hsbL, List.length_set]
                exact hlb
              obtain ⟨fN, hfN⟩ : ∃ e, sb.locations[updated.location_index]? = some e :=
                ⟨_, List.getElem?_eq_getElem hlb'⟩
              have hfN' : (s.locations.set original.location_index
                  (fO.1, bucketRemove (id_to_index vid) fO.2))[updated.location_index]?
                  = some fN := by
                rw [← hsbL]
                exact hfN
              rcases add_visit_to_location_fields sb updated user hfN with
                ⟨s3, haddl, h3now, h3users, h3vis, h3locs⟩
              rw [haddl] at h
              dsimp only at h
              obtain ⟨hr, hstore⟩ := Prod.mk.inj (Option.some_inj.mp h)
              rw [← hstore]
              have hs3L : s3.locations = (s.locations.set original.location_index
                  (fO.1, bucketRemove (id_to_index vid) fO.2)).set
                  updated.location_index (fN.1, fN.2 ++ [(id_to_index vid, user.index)]) := by
                rw [h3locs, hsbL, hupd_idx]
              have hs3U : s3.users = (s.users.set original.user_index
                  (eO.1, bucketRemove (id_to_index vid) eO.2)).set updated.user_index
                  (eN.1, bucketInsert
                    (fun p => decide (updated.visited_at <
                      visitAt (s.visits.set (id_to_index vid) updated) p.1))
                    (id_to_index vid, location.index) eN.2) := by
                rw [h3users, hsbU, hs2U]
              have hs3V : s3.visits = s.visits.set (id_to_index vid) updated := by
                rw [h3vis, hsbV]
              obtain ⟨A1, A2, A3, A4, A5⟩ := Inv_user_side_update hs horig hub hKloc
                heO heN' hs3U hs3V
                (by rw [hs3L, List.length_set, List.length_set])
              obtain ⟨B1, B2, B3, B4⟩ := Inv_loc_side_update hs horig hlb hKuser
                hfO hfN' hs3L hs3V
                (by rw [hs3U, List.length_set, List.length_set])
              exact ⟨A1, B1, vids_update hs hupd_idx hs3V, A2, B2, A3, A4, A5, B3, B4⟩
            · rw [if_neg hflagL] at h
              dsimp only at h
              obtain ⟨hr, hstore⟩ := Prod.mk.inj (Option.some_inj.mp h)
              rw [← hstore]
              push_neg at hflagL
              have hsamel : updated.location_index = original.location_index :=
                congrArg id_to_index hflagL.1.symm
              obtain ⟨A1, A2, A3, A4, A5⟩ := Inv_user_side_update hs horig hub hKloc
                heO heN' hs2U hs2V (by rw [hs2Loc])
              obtain ⟨B1, B2, B3, B4⟩ := Inv_loc_side_id hs horig hsamel hs2Loc hs2V
                (by rw [hs2U, List.length_set, List.length_set])
              exact ⟨A1, B1, vids_update hs hupd_idx hs2V, A2, B2, A3, A4, A5, B3, B4⟩
          · rw [if_neg hflagU] at h
            dsimp only at h
            push_neg at hflagU
            have hfl2 : ¬ (original.location ≠ updated.location ∨
                original.user ≠ updated.user) := by
              push_neg
              exact ⟨hflagU.2.2, hflagU.1⟩
            rw [if_neg hfl2] at h
            dsimp only at h
            cases h
            have hsameu : updated.user_index = original.user_index :=
              congrArg id_to_index hflagU.1.symm
            have hsamet : updated.visited_at = original.visited_at := hflagU.2.1.symm
            have hsamel : updated.location_index = original.location_index :=
              congrArg id_to_index hflagU.2.2.symm
            have hσU : ({ s with visits := s.visits.set (id_to_index vid) updated }
                : Store).users = s.users := rfl
            have hσV : ({ s with visits := s.visits.set (id_to_index vid) updated }
                : Store).visits = s.visits.set (id_to_index vid) updated := rfl
            have hσLc : ({ s with visits := s.visits.set (id_to_index vid) updated }
                : Store).locations = s.locations := rfl
            obtain ⟨A1, A2, A3, A4, A5⟩ :=
              Inv_user_side_id hs horig hsameu hsamet hσU hσV (by rw [hσLc])
            obtain ⟨B1, B2, B3, B4⟩ :=
              Inv_loc_side_id hs horig hsamel hσLc hσV (by rw [hσU])
            exact ⟨A1, B1, vids_update hs hupd_idx hσV, A2, B2, A3, A4, A5, B3, B4⟩

end Hlcup

namespace Hlcup

/-- Every reachable store satisfies the invariant. -/
theorem Inv_of_Reachable {s : Store} (h : Reachable s) : Inv s := by
  induction h with
  | init now => exact Inv_new now
  | add_user_step s u r s₂ hre heq ih => exact Inv_add_user ih heq
  | update_user_step s uid d r s₂ hre heq ih => exact Inv_update_user ih heq
  | add_location_step s l r s₂ hre heq ih => exact Inv_add_location ih heq
  | update_location_step s lid d r s₂ hre heq ih => exact Inv_update_location ih heq
  | add_visit_step s v r s₂ hre heq ih => exact Inv_add_visit ih heq
  | update_visit_step s vid d r s₂ hre heq ih => exact Inv_update_visit ih heq

end Hlcup

namespace Hlcup

/-! Concrete stores used to witness the claim theorems. -/

deriving instance DecidableEq for Except

/-- Demo person, id 1. -/
def demoUser : User := ⟨1, "u@mail", "A", "B", 'm', -900000000⟩
/-- Demo person with the next id, 2. -/
def demoUser2 : User := ⟨2, "w@mail", "C", "D", 'f', 500000000⟩
/-- Demo place, id 1. -/
def demoLocation : Location := ⟨1, "Musei", "Russia", "Krasnodar", 10⟩
/-- Demo visit, id 1, linking the demo person and place. -/
def demoVisit : Visit := ⟨1, 1, 1, 100, 4⟩
/-- Store after adding the demo person. -/
def demoS1 : Store := ⟨0, [(demoUser, [])], [], []⟩
/-- Store after adding the demo person and place. -/
def demoS2 : Store := ⟨0, [(demoUser, [])], [(demoLocation, [])], []⟩
/-- Store after adding the demo person, place and visit. -/
def demoStore : Store := ⟨0, [(demoUser, [(0, 0)])], [(demoLocation, [(0, 0)])], [demoVisit]⟩

/-- The demo store arises from a concrete operation sequence. -/
theorem demoStore_reachable : Reachable demoStore :=
  Reachable.add_visit_step demoS2 demoVisit (.ok ⟨⟩) demoStore
    (Reachable.add_location_step demoS1 demoLocation (.ok ⟨⟩) demoS2
      (Reachable.add_user_step (Store.new 0) demoUser (.ok ⟨⟩) demoS1
        (Reachable.init 0) (by decide))
      (by decide))
    (by decide)

end Hlcup

namespace Hlcup

/-! Helper evaluation lemmas for the foreign-key getters. -/

/-- A dangling person foreign key produces the "user" validation error. -/
theorem get_visit_user_dangling {s : Store} {uid : Nat}
    (h : s.users.length ≤ id_to_index uid) :
    s.get_visit_user uid = .error (.InvalidEntity
      ⟨"user", "User with ID " ++ toString uid ++ " not exists"⟩) := by
  unfold Store.get_visit_user
  rw [dif_pos h]

/-- A dangling place foreign key produces the "location" validation error. -/
theorem get_visit_location_dangling {s : Store} {lid : Nat}
    (h : s.locations.length ≤ id_to_index lid) :
    s.get_visit_location lid = .error (.InvalidEntity
      ⟨"location", "Location with ID " ++ toString lid ++ " not exists"⟩) := by
  unfold Store.get_visit_location
  rw [dif_pos h]

/-- A resolvable person foreign key yields the stored person. -/
theorem get_visit_user_found {s : Store} {uid : Nat}
    (h : id_to_index uid < s.users.length) :
    s.get_visit_user uid = .ok (s.users.get ⟨id_to_index uid, h⟩).1 := by
  unfold Store.get_visit_user
  rw [dif_neg (by omega)]

/-- A resolvable place foreign key yields the stored place. -/
theorem get_visit_location_found {s : Store} {lid : Nat}
    (h : id_to_index lid < s.locations.length) :
    s.get_visit_location lid = .ok (s.locations.get ⟨id_to_index lid, h⟩).1 := by
  unfold Store.get_visit_location
  rw [dif_neg (by omega)]

/-- The three insert outcomes named by the spec contract:
Ok, AlreadyExists (`EntryExists`) or Invalid (`InvalidEntity`). -/
def threeInsertOutcomes (r : Except StoreError Empty) : Bool :=
  match r with
  | .ok _ => true
  | .error .EntryExists => true
  | .error (.InvalidEntity _) => true
  | .error _ => false

/-- The four outcomes an insert can actually produce:
the three of the contract plus `UnexpectedIndex` for a non-sequential id. -/
def fourInsertOutcomes (r : Except StoreError Empty) : Bool :=
  match r with
  | .ok _ => true
  | .error .EntryExists => true
  | .error (.InvalidEntity _) => true
  | .error (.UnexpectedIndex _ _) => true
  | .error _ => false

/-- On an invariant-satisfying store, `add_visit` never panics and its
outcome is among the four insert outcomes. -/
theorem add_visit_total {s : Store} (hs : Inv s) (v : Visit) :
    ∃ r s₂, s.add_visit v = some (r, s₂) ∧ fourInsertOutcomes r = true := by
  unfold Store.add_visit
  dsimp only
  by_cases h1 : s.visits.length > v.index
  · rw [if_pos h1]
    exact ⟨_, _, rfl, rfl⟩
  · rw [if_neg h1]
    by_cases h2 : s.visits.length ≠ v.index
    · rw [if_pos h2]
      exact ⟨_, _, rfl, rfl⟩
    · rw [if_neg h2]
      cases hv : v.valid with
      | error e => exact ⟨_, _, rfl, rfl⟩
      | ok w =>
        cases hgu : s.get_visit_user v.user with
        | error e =>
          refine ⟨.error e, s, rfl, ?_⟩
          unfold Store.get_visit_user at hgu
          by_cases hc : s.users.length ≤ id_to_index v.user
          · rw [dif_pos hc] at hgu
            cases hgu
            rfl
          · rw [dif_neg hc] at hgu
            cases hgu
        | ok user =>
          cases hgl : s.get_visit_location v.location with
          | error e =>
            refine ⟨.error e, s, rfl, ?_⟩
            unfold Store.get_visit_location at hgl
            by_cases hc : s.locations.length ≤ id_to_index v.location
            · rw [dif_pos hc] at hgl
              cases hgl
              rfl
            · rw [dif_neg hc] at hgl
              cases hgl
          | ok location =>
            dsimp only
            rcases get_visit_user_ok hgu with ⟨eU, heU, heU1, hub⟩
            rcases get_visit_location_ok hgl with ⟨eL, heL, heL1, hlb⟩
            have hbnd : ∀ p ∈ eU.2, p.1 < s.visits.length :=
              fun p hp => hs.ubucket_fst_lt heU hp
            rcases add_visit_to_user_fields s v location heU hbnd with
              ⟨s1, hu1, h1now, h1loc, h1vis, h1users⟩
            rw [hu1]
            dsimp only
            have heL1s : s1.locations[v.location_index]? = some eL := by
              rw [h1loc]
              exact heL
            rcases add_visit_to_location_fields s1 v user heL1s with
              ⟨s2, hu2, h2now, h2users, h2vis, h2locs⟩
            rw [hu2]
            exact ⟨_, _, rfl, rfl⟩

/-- C4 exhibit: on an empty store, ids 1 (user), 1 (location) are absent, yet
`update_user`/`update_location` crash with an out-of-bounds index (the guard
uses `<` where `<=` is needed) instead of returning `EntityNotExists`;
`update_visit`, whose guard uses `<=`, returns `EntityNotExists` as the claim
demands. -/
theorem update_user_location_panic_on_absent_id :
    (Store.new 0).update_user 1 ⟨none, none, none, none, none⟩ = none ∧
    (Store.new 0).update_location 1 ⟨none, none, none, none⟩ = none ∧
    (Store.new 0).update_visit 1 ⟨none, none, none, none⟩
      = some (.error .EntityNotExists, Store.new 0) := by
  refine ⟨rfl, rfl, rfl⟩

/-- C5 counterexample: inserting a user whose id (2) is neither present nor
the next sequential id on a fresh store yields `UnexpectedIndex`, which is
none of the three claimed outcomes Ok / AlreadyExists / Invalid. -/
theorem add_user_gap_id_fourth_outcome :
    threeInsertOutcomes ((Store.new 0).add_user demoUser2).1 = false := by
  decide

/-- C5 (amended): on any reachable store, every insert returns one of exactly
four outcomes — Ok, AlreadyExists, Invalid, or UnexpectedIndex — and never
panics; in particular an id that is neither present nor next-sequential
yields the fourth outcome, `UnexpectedIndex`. -/
theorem insert_outcomes (s : Store) (h : Reachable s) (u : User) (l : Location)
    (v : Visit) :
    fourInsertOutcomes (s.add_user u).1 = true ∧
    fourInsertOutcomes (s.add_location l).1 = true ∧
    (∃ r s₂, s.add_visit v = some (r, s₂) ∧ fourInsertOutcomes r = true) := by
  have hs := Inv_of_Reachable h
  refine ⟨?_, ?_, add_visit_total hs v⟩
  · unfold Store.add_user
    dsimp only
    by_cases h1 : s.users.length > id_to_index u.id
    · rw [if_pos h1]
      rfl
    · rw [if_neg h1]
      by_cases h2 : s.users.length ≠ id_to_index u.id
      · rw [if_pos h2]
        rfl
      · rw [if_neg h2]
        cases hv : u.valid with
        | error e => rfl
        | ok w => rfl
  · unfold Store.add_location
    dsimp only
    by_cases h1 : s.locations.length > l.index
    · rw [if_pos h1]
      rfl
    · rw [if_neg h1]
      by_cases h2 : s.locations.length ≠ l.index
      · rw [if_pos h2]
        rfl
      · rw [if_neg h2]
        cases hv : l.valid with
        | error e => rfl
        | ok w => rfl

/-- C5 witness: the amended statement at the demo store and fresh entities. -/
theorem insert_outcomes_witness :
    fourInsertOutcomes (demoStore.add_user demoUser2).1 = true ∧
    fourInsertOutcomes (demoStore.add_location demoLocation).1 = true ∧
    (∃ r s₂, demoStore.add_visit demoVisit = some (r, s₂) ∧
      fourInsertOutcomes r = true) :=
  insert_outcomes demoStore demoStore_reachable demoUser2 demoLocation demoVisit

/-- C8: for each entity kind, inserting an entity whose id is already present
fails with `EntryExists` and leaves the whole store — in particular the
previously stored entity — unchanged. -/
theorem duplicate_insert_rejected (s : Store) (u : User) (l : Location) (v : Visit)
    (hu : id_to_index u.id < s.users.length)
    (hl : l.index < s.locations.length)
    (hv : v.index < s.visits.length) :
    s.add_user u = (.error .EntryExists, s) ∧
    s.add_location l = (.error .EntryExists, s) ∧
    s.add_visit v = some (.error .EntryExists, s) := by
  refine ⟨?_, ?_, ?_⟩
  · unfold Store.add_user
    rw [if_pos hu]
  · unfold Store.add_location
    rw [if_pos hl]
  · unfold Store.add_visit
    rw [if_pos hv]

/-- C8 witness: duplicate inserts at the populated demo store. -/
theorem duplicate_insert_rejected_witness :
    demoStore.add_user demoUser = (.error .EntryExists, demoStore) ∧
    demoStore.add_location demoLocation = (.error .EntryExists, demoStore) ∧
    demoStore.add_visit demoVisit = some (.error .EntryExists, demoStore) :=
  duplicate_insert_rejected demoStore demoUser demoLocation demoVisit
    (by decide) (by decide) (by decide)

end Hlcup

namespace Hlcup

/-- C2: a patch whose resulting visit fails validation, or whose resulting
person or place foreign key does not resolve, makes `update_visit` return an
`InvalidEntity` error with the whole store — hence the stored visit and both
of its index-bucket entries — returned exactly unchanged. -/
theorem patch_invalid_leaves_store_unchanged (s : Store) (vid : Nat) (d : VisitData)
    (v : Visit) (hstored : s.visits[id_to_index vid]? = some v)
    (hfail : (∃ e, (applyVisitData v d).valid = .error e)
      ∨ s.users.length ≤ (applyVisitData v d).user_index
      ∨ s.locations.length ≤ (applyVisitData v d).location_index) :
    ∃ e, s.update_visit vid d = some (.error (.InvalidEntity e), s) := by
  rcases List.getElem?_eq_some.mp hstored with ⟨hlt, hget⟩
  unfold Store.update_visit
  rw [dif_neg (by omega : ¬ s.visits.length ≤ id_to_index vid)]
  dsimp only
  have hgv : s.visits.get ⟨id_to_index vid, hlt⟩ = v := by
    rw [List.get_eq_getElem]
    exact hget
  rw [hgv]
  rcases hfail with ⟨e₀, hverr⟩ | hdang
  · rw [hverr]
    exact ⟨e₀, rfl⟩
  · cases hv : (applyVisitData v d).valid with
    | error e₀ => exact ⟨e₀, rfl⟩
    | ok w =>
      by_cases hld : s.locations.length ≤ (applyVisitData v d).location_index
      · rw [get_visit_location_dangling hld]
        exact ⟨_, rfl⟩
      · have hll : id_to_index (applyVisitData v d).location < s.locations.length :=
          Nat.lt_of_not_le hld
        rw [get_visit_location_found hll]
        have hud : s.users.length ≤ (applyVisitData v d).user_index := by
          rcases hdang with h | h
          · exact h
          · exact absurd h hld
        rw [get_visit_user_dangling hud]
        exact ⟨_, rfl⟩

/-- C2 witness: patching the demo visit's mark to 6 (exceeding 5) fails with
`InvalidEntity` and returns the demo store unchanged. -/
theorem patch_invalid_leaves_store_unchanged_witness :
    ∃ e, demoStore.update_visit 1 ⟨none, none, none, some 6⟩
      = some (.error (.InvalidEntity e), demoStore) :=
  patch_invalid_leaves_store_unchanged demoStore 1 ⟨none, none, none, some 6⟩
    demoVisit (by decide) (Or.inl ⟨⟨"mark", "Mark is 6 (max 5)"⟩, by decide⟩)

/-- C3: a visit whose insertion is otherwise well-formed (next sequential id,
valid fields) but whose person or place foreign key does not resolve is
rejected by `add_visit` with an `InvalidEntity` error naming the offending
field — "user" when the person id dangles (checked first), else "location" —
and the store is returned exactly unchanged: no table entry, no bucket
entries. -/
theorem add_visit_dangling_fk_rejected (s : Store) (v : Visit)
    (hidx : v.index = s.visits.length)
    (hvalid : v.valid = .ok ())
    (hdang : s.users.length ≤ v.user_index ∨ s.locations.length ≤ v.location_index) :
    ∃ e, s.add_visit v = some (.error (.InvalidEntity e), s) ∧
      e.field = (if s.users.length ≤ v.user_index then "user" else "location") := by
  unfold Store.add_visit
  dsimp only
  rw [if_neg (by omega : ¬ s.visits.length > v.index),
    if_neg (by omega : ¬ s.visits.length ≠ v.index), hvalid]
  by_cases hud : s.users.length ≤ v.user_index
  · rw [get_visit_user_dangling hud]
    exact ⟨_, rfl, by rw [if_pos hud]⟩
  · have hul : id_to_index v.user < s.users.length := Nat.lt_of_not_le hud
    rw [get_visit_user_found hul]
    have hld : s.locations.length ≤ v.location_index := by
      rcases hdang with h | h
      · exact absurd h hud
      · exact h
    rw [get_visit_location_dangling hld]
    exact ⟨_, rfl, by rw [if_neg hud]⟩

/-- C3 witness: on the store holding only the demo person and place, a visit
referencing place id 100 is rejected naming field "location", leaving the
store unchanged. -/
theorem add_visit_dangling_fk_rejected_witness :
    ∃ e, demoS2.add_visit ⟨1, 100, 1, 50, 3⟩
      = some (.error (.InvalidEntity e), demoS2) ∧
      e.field = (if demoS2.users.length ≤ (⟨1, 100, 1, 50, 3⟩ : Visit).user_index
        then "user" else "location") :=
  add_visit_dangling_fk_rejected demoS2 ⟨1, 100, 1, 50, 3⟩ (by decide) (by decide)
    (Or.inr (by decide))

/-- C9: on an existing place, whenever the filter step of `get_location_avg`
keeps no visit at all (in particular for a place with an empty bucket), the
query succeeds with the default rating 0, not an error. -/
theorem location_avg_empty_default (s : Store) (lid : Nat)
    (opts : GetLocationAvgOptions)
    (hloc : id_to_index lid < s.locations.length)
    (pairs : List (Visit × User))
    (hres : s.location_visit_pairs (s.locations.get ⟨id_to_index lid, hloc⟩).2
      = some pairs)
    (hempty : pairs.filter (locationAvgPred opts
      (opts.from_age.bind (fun a => s.age_cutoff a))
      (opts.to_age.bind (fun a => s.age_cutoff a))) = []) :
    s.get_location_avg lid opts = some (.ok LocationRate.default) := by
  unfold Store.get_location_avg
  rw [dif_neg (by omega : ¬ s.locations.length ≤ id_to_index lid)]
  dsimp only
  rw [hres]
  dsimp only
  rw [hempty]
  rfl

/-- C9 witness: the demo place has one visit by a male person; a female-only
filter keeps nothing and the average query returns the default rating 0. -/
theorem location_avg_empty_default_witness :
    demoStore.get_location_avg 1 ⟨none, none, none, none, some 'f'⟩
      = some (.ok LocationRate.default) :=
  location_avg_empty_default demoStore 1 ⟨none, none, none, none, some 'f'⟩
    (by decide) [(demoVisit, demoUser)] (by decide) (by decide)

/-- C7: in `get_location_avg`, the age filters act through birth-timestamp
cutoffs computed from the store-construction-time "now" with its year
decreased by the requested age (`Store.age_cutoff`, never a query-time
clock): every visit kept by the filter has its person born strictly before
the minimum-age cutoff and strictly after the maximum-age cutoff, whenever
the respective filter is present and its cutoff is defined. -/
theorem location_avg_age_cutoffs (s : Store) (lid : Nat)
    (opts : GetLocationAvgOptions)
    (hloc : id_to_index lid < s.locations.length)
    (pairs : List (Visit × User))
    (hres : s.location_visit_pairs (s.locations.get ⟨id_to_index lid, hloc⟩).2
      = some pairs)
    (vu : Visit × User)
    (hmem : vu ∈ pairs.filter (locationAvgPred opts
      (opts.from_age.bind (fun a => s.age_cutoff a))
      (opts.to_age.bind (fun a => s.age_cutoff a)))) :
    (∀ n c, opts.from_age = some n → s.age_cutoff n = some c →
      vu.2.birth_date < c) ∧
    (∀ n c, opts.to_age = some n → s.age_cutoff n = some c →
      c < vu.2.birth_date) := by
  rcases List.mem_filter.mp hmem with ⟨-, hpred⟩
  constructor
  · intro n c hn hc
    have hp := hpred
    rw [hn] at hp
    simp only [Option.some_bind] at hp
    rw [hc] at hp
    simp only [locationAvgPred, Bool.and_eq_true] at hp
    exact of_decide_eq_true hp.1.2
  · intro n c hn hc
    have hp := hpred
    rw [hn] at hp
    simp only [Option.some_bind] at hp
    rw [hc] at hp
    simp only [locationAvgPred, Bool.and_eq_true] at hp
    exact of_decide_eq_true hp.2

/-- C7 witness: with "now" = 1970-01-01 and a minimum age of 1 year, the
cutoff is 1969-01-01 and the demo person (born before it) passes the strict
comparison. -/
theorem location_avg_age_cutoffs_witness :
    (∀ n c, (some (1 : Int) : Option Int) = some n →
      demoStore.age_cutoff n = some c →
      (demoVisit, demoUser).2.birth_date < c) ∧
    (∀ n c, (none : Option Int) = some n →
      demoStore.age_cutoff n = some c →
      c < (demoVisit, demoUser).2.birth_date) :=
  location_avg_age_cutoffs demoStore 1 ⟨none, none, some 1, none, none⟩
    (by decide) [(demoVisit, demoUser)] (by decide) (demoVisit, demoUser)
    (by decide)

end Hlcup

namespace Hlcup

/-! Executable statements of the index-consistency and ordering claims. -/

/-- One person bucket is consistent with the visit table: every entry
references an in-range visit position, and for every visit position the
bucket holds exactly `uCond` references — one when the visit currently
belongs to this person, zero otherwise (so: never zero, never duplicated,
never stale). -/
def userBucketConsistent (s : Store) (ui : Nat) (bucket : List (Nat × Nat)) : Bool :=
  bucket.all (fun p => decide (p.1 < s.visits.length)) &&
  (List.range s.visits.length).all (fun vi => decide (countFst vi bucket = uCond s ui vi))

/-- One place bucket is consistent with the visit table (symmetric). -/
def locationBucketConsistent (s : Store) (li : Nat) (bucket : List (Nat × Nat)) : Bool :=
  bucket.all (fun p => decide (p.1 < s.visits.length)) &&
  (List.range s.visits.length).all (fun vi => decide (countFst vi bucket = lCond s li vi))

/-- Both index families mirror the visit table exactly. -/
def indexConsistent (s : Store) : Bool :=
  (List.range s.users.length).all (fun ui =>
    match s.users[ui]? with
    | none => false
    | some e => userBucketConsistent s ui e.2) &&
  (List.range s.locations.length).all (fun li =>
    match s.locations[li]? with
    | none => false
    | some e => locationBucketConsistent s li e.2)

/-- C1: after any sequence of store operations (visit adds and patches
interleaved with any other operations), every person bucket holds exactly one
entry for each visit whose current person is that person and no others, and
symmetrically every place bucket mirrors the visits' current places. -/
theorem index_consistency (s : Store) (h : Reachable s) :
    indexConsistent s = true := by
  have hs := Inv_of_Reachable h
  unfold indexConsistent
  rw [Bool.and_eq_true]
  constructor
  · rw [List.all_eq_true]
    intro ui hui
    rw [List.mem_range] at hui
    have he : s.users[ui]? = some (s.users.get ⟨ui, hui⟩) := by
      rw [List.getElem?_eq_getElem hui]
      simp [List.get_eq_getElem]
    show (match s.users[ui]? with
      | none => false
      | some e => userBucketConsistent s ui e.2) = true
    rw [he]
    show userBucketConsistent s ui (s.users.get ⟨ui, hui⟩).2 = true
    unfold userBucketConsistent
    rw [Bool.and_eq_true]
    constructor
    · rw [List.all_eq_true]
      intro p hp
      exact decide_eq_true (hs.ubucket_fst_lt he hp)
    · rw [List.all_eq_true]
      intro vi hvi
      exact decide_eq_true (hs.ubucket _ _ he vi)
  · rw [List.all_eq_true]
    intro li hli
    rw [List.mem_range] at hli
    have he : s.locations[li]? = some (s.locations.get ⟨li, hli⟩) := by
      rw [List.getElem?_eq_getElem hli]
      simp [List.get_eq_getElem]
    show (match s.locations[li]? with
      | none => false
      | some e => locationBucketConsistent s li e.2) = true
    rw [he]
    show locationBucketConsistent s li (s.locations.get ⟨li, hli⟩).2 = true
    unfold locationBucketConsistent
    rw [Bool.and_eq_true]
    constructor
    · rw [List.all_eq_true]
      intro p hp
      exact decide_eq_true (hs.lbucket_fst_lt he hp)
    · rw [List.all_eq_true]
      intro vi hvi
      exact decide_eq_true (hs.lbucket _ _ he vi)

/-- C1 witness: the consistency check at the concretely built demo store. -/
theorem index_consistency_witness : indexConsistent demoStore = true :=
  index_consistency demoStore demoStore_reachable

/-! The ordering claim. -/

/-- The visit stored at a position (an arbitrary value out of range, where
the source would panic). -/
def visitD (s : Store) (vi : Nat) : Visit :=
  match s.visits[vi]? with
  | some v => v
  | none => ⟨0, 0, 0, 0, 0⟩

/-- The place stored at a position (an arbitrary value out of range). -/
def locD (s : Store) (li : Nat) : Location :=
  match s.locations[li]? with
  | some e => e.1
  | none => ⟨0, "", "", "", 0⟩

theorem visitD_visited_at (s : Store) (vi : Nat) :
    (visitD s vi).visited_at = visitAt s.visits vi := by
  unfold visitD visitAt
  cases s.visits[vi]? <;> rfl

/-- A visit-history list is in non-decreasing visited-at order. -/
def isSortedByVisitedAt : List UserVisit → Bool
  | [] => true
  | [_] => true
  | a :: b :: rest => decide (a.visited_at ≤ b.visited_at) && isSortedByVisitedAt (b :: rest)

theorem isSorted_of_pairwise :
    ∀ {l : List UserVisit},
      l.Pairwise (fun a b => a.visited_at ≤ b.visited_at) →
      isSortedByVisitedAt l = true := by
  intro l
  induction l with
  | nil => intro _; rfl
  | cons a rest ih =>
    intro h
    rw [List.pairwise_cons] at h
    cases rest with
    | nil => rfl
    | cons b rest₂ =>
      show (decide (a.visited_at ≤ b.visited_at)
        && isSortedByVisitedAt (b :: rest₂)) = true
      rw [Bool.and_eq_true]
      exact ⟨decide_eq_true (h.1 b (by simp)), ih h.2⟩

/-- `get_user_visits` succeeds and has a closed form on an
invariant-satisfying store with no filters. -/
theorem get_user_visits_default_eq {s : Store} (hs : Inv s) {uid : Nat}
    (hu : id_to_index uid < s.users.length) :
    s.get_user_visits uid GetUserVisitsOptions.default
      = some (.ok ⟨(s.users.get ⟨id_to_index uid, hu⟩).2.map
          (fun p => (⟨(visitD s p.1).mark, (visitD s p.1).visited_at,
            (locD s p.2).place⟩ : UserVisit))⟩) := by
  have he : s.users[id_to_index uid]? = some (s.users.get ⟨id_to_index uid, hu⟩) := by
    rw [List.getElem?_eq_getElem hu]
    simp [List.get_eq_getElem]
  unfold Store.get_user_visits
  rw [dif_neg (by omega : ¬ s.users.length ≤ id_to_index uid)]
  dsimp only
  have hres : resolveList (fun p => do
        let v ← s.visits[p.1]?
        let l ← s.locations[p.2]?
        some (v, l.1))
      (s.users.get ⟨id_to_index uid, hu⟩).2
      = some ((s.users.get ⟨id_to_index uid, hu⟩).2.map
          (fun p => (visitD s p.1, locD s p.2))) := by
    apply resolveList_eq
    intro p hp
    have h1 : p.1 < s.visits.length := hs.ubucket_fst_lt he hp
    have h2 : p.2 < s.locations.length := hs.usnd _ _ he p hp
    have hv : visitD s p.1 = s.visits[p.1] := by
      unfold visitD
      rw [List.getElem?_eq_getElem h1]
    have hl : locD s p.2 = (s.locations[p.2]).1 := by
      unfold locD
      rw [List.getElem?_eq_getElem h2]
    rw [List.getElem?_eq_getElem h1, List.getElem?_eq_getElem h2]
    show some (s.visits[p.1], (s.locations[p.2]).1) = some (visitD s p.1, locD s p.2)
    rw [hv, hl]
  rw [hres]
  dsimp only
  have hfilt : (((s.users.get ⟨id_to_index uid, hu⟩).2.map
      (fun p => (visitD s p.1, locD s p.2))).filter
        (userVisitPred GetUserVisitsOptions.default))
      = ((s.users.get ⟨id_to_index uid, hu⟩).2.map
          (fun p => (visitD s p.1, locD s p.2))) := by
    apply List.filter_eq_self.mpr
    intro a ha
    rfl
  rw [hfilt, List.map_map]
  rfl

/-- The sortedness check of the unfiltered visit history of one person:
the call succeeds (no panic) and the entries are in non-decreasing
visited-at order. -/
def userVisitsSorted (s : Store) (uid : Nat) : Bool :=
  match s.get_user_visits uid GetUserVisitsOptions.default with
  | some (.ok uv) => isSortedByVisitedAt uv.visits
  | _ => false

/-- C6: on any reachable store (visits added and patched in any order),
`get_user_visits` with no filters on an existing person returns its
visit-history entries in non-decreasing visited-at order. -/
theorem user_visits_sorted (s : Store) (h : Reachable s) (uid : Nat)
    (hu : id_to_index uid < s.users.length) :
    userVisitsSorted s uid = true := by
  have hs := Inv_of_Reachable h
  have he : s.users[id_to_index uid]? = some (s.users.get ⟨id_to_index uid, hu⟩) := by
    rw [List.getElem?_eq_getElem hu]
    simp [List.get_eq_getElem]
  unfold userVisitsSorted
  rw [get_user_visits_default_eq hs hu]
  show isSortedByVisitedAt ((s.users.get ⟨id_to_index uid, hu⟩).2.map
    (fun p => (⟨(visitD s p.1).mark, (visitD s p.1).visited_at,
      (locD s p.2).place⟩ : UserVisit))) = true
  apply isSorted_of_pairwise
  rw [List.pairwise_map]
  refine (hs.usorted _ _ he).imp_of_mem ?_
  intro a b ha hb hab
  show (visitD s a.1).visited_at ≤ (visitD s b.1).visited_at
  rw [visitD_visited_at, visitD_visited_at]
  exact hab

/-- C6 witness: the sorted visit history of the demo person. -/
theorem user_visits_sorted_witness : userVisitsSorted demoStore 1 = true :=
  user_visits_sorted demoStore demoStore_reachable 1 (by decide)

end Hlcup

namespace Hlcup

/-- Does an insert result consist of an `InvalidEntity` error together with
the (unchanged) given store? -/
def isInvalidEntityUnchanged (s : Store)
    (res : Option (Except StoreError Empty × Store)) : Bool :=
  match res with
  | some (.error (.InvalidEntity _), s₂) => decide (s₂ = s)
  | _ => false

/-- C3 counterexample: a visit whose user id (100) does not resolve but whose
own id (1) is already taken is rejected with `EntryExists`, not with an
`InvalidEntity` error naming the offending field — the position check
precedes the foreign-key check. -/
theorem add_visit_dangling_fk_not_always_invalid :
    demoStore.add_visit ⟨1, 1, 100, 50, 3⟩
      = some (.error .EntryExists, demoStore) ∧
    isInvalidEntityUnchanged demoStore (demoStore.add_visit ⟨1, 1, 100, 50, 3⟩)
      = false := by
  refine ⟨by decide, by decide⟩

end Hlcup
